import Mathlib

/-!
Verification of the batch pipeline of the rednote-capture extension.

The definitions below are a shallow embedding of the TypeScript sources:
  * src/services/queue-manager.ts   (queue store and derived counts)
  * src/services/batch-processor.ts (sequential batch orchestrator)
  * src/services/pdf-generator.ts   (filename derivation, base64 helpers,
                                     Drive upload retry loop)
  * src/background/handlers queue handler (handleProcessQueue guard)

Effectful calls (Date.now, crypto.randomUUID, chrome storage, network,
the progress callback, setTimeout) are modelled by explicit parameters,
oracles, and event/delay traces threaded through otherwise pure functions.
-/

namespace RedNote

/-! ## Data model (src/models/captured-post.ts, src/models/post-queue.ts) -/

/-- A captured source post.  Image records are abstracted to their URLs;
the pipeline never inspects them beyond passing them to the renderer. -/
structure CapturedPost where
  id : String
  sourceUrl : String
  title : String
  description : String
  authorName : String
  authorId : String
  captureTimestamp : Nat
  images : List String
  isVideo : Bool
  deriving DecidableEq, Repr

inductive QueueItemStatus
  | pending
  | processing
  | completed
  | failed
  deriving DecidableEq, Repr

/-- Result record of a processed queue item.  Optional TS fields are
`Option`; `completedAt` is always stamped when a result is written. -/
structure QueueItemResult where
  pdfBlobUrl : Option String
  pdfFilename : Option String
  pdfSizeBytes : Option Nat
  driveFileId : Option String
  webViewLink : Option String
  completedAt : Nat
  deriving DecidableEq, Repr

structure QueueItem where
  id : String
  postId : String
  post : CapturedPost
  status : QueueItemStatus
  addedAt : Nat
  startedAt : Option Nat
  result : Option QueueItemResult
  error : Option String
  retryCount : Nat
  deriving DecidableEq, Repr

structure PostQueue where
  items : List QueueItem
  totalItems : Nat
  pendingItems : Nat
  processingItems : Nat
  completedItems : Nat
  failedItems : Nat
  createdAt : Nat
  updatedAt : Nat
  deriving DecidableEq, Repr

/-- `createEmptyQueue` from src/models/post-queue.ts; `now` models
`Date.now()`. -/
def createEmptyQueue (now : Nat) : PostQueue :=
  { items := []
    totalItems := 0
    pendingItems := 0
    processingItems := 0
    completedItems := 0
    failedItems := 0
    createdAt := now
    updatedAt := now }

/-! ## Queue manager (src/services/queue-manager.ts) -/

/-- `createQueueItem`; `uuid` models `crypto.randomUUID()` and `now`
models `Date.now()`. -/
def createQueueItem (uuid : String) (now : Nat) (post : CapturedPost) : QueueItem :=
  { id := uuid
    postId := post.id
    post := post
    status := .pending
    addedAt := now
    startedAt := none
    result := none
    error := none
    retryCount := 0 }

/-- `recalculateTotals`: every derived count is recomputed from the item
list, and `updatedAt` is stamped. -/
def recalculateTotals (now : Nat) (q : PostQueue) : PostQueue :=
  { q with
    totalItems := q.items.length
    pendingItems := (q.items.filter (fun i => i.status == .pending)).length
    processingItems := (q.items.filter (fun i => i.status == .processing)).length
    completedItems := (q.items.filter (fun i => i.status == .completed)).length
    failedItems := (q.items.filter (fun i => i.status == .failed)).length
    updatedAt := now }

/-- `QueueManager.addToQueue`: returns the existing item untouched when
the post id is already queued, otherwise appends a fresh pending item and
recalculates the totals. -/
def addToQueue (uuid : String) (now : Nat) (post : CapturedPost) (q : PostQueue) :
    QueueItem × PostQueue :=
  match q.items.find? (fun item => item.postId == post.id) with
  | some existingItem => (existingItem, q)
  | none =>
      let item := createQueueItem uuid now post
      (item, recalculateTotals now { q with items := q.items ++ [item] })

/-- `QueueManager.removeFromQueue`. -/
def removeFromQueue (now : Nat) (itemId : String) (q : PostQueue) : PostQueue :=
  recalculateTotals now { q with items := q.items.filter (fun item => item.id != itemId) }

/-- A `Partial<QueueItemResult>` argument: absent fields are `none`. -/
structure PartialResult where
  pdfBlobUrl : Option String := none
  pdfFilename : Option String := none
  pdfSizeBytes : Option Nat := none
  driveFileId : Option String := none
  webViewLink : Option String := none
  completedAt : Option Nat := none
  deriving DecidableEq, Repr

/-- The object spread `{ ...item.result, ...result, completedAt: Date.now() }`:
fields present in the partial override the old result (an absent old result
spreads as the empty object), and `completedAt` is stamped with `now`. -/
def mergeResult (old : Option QueueItemResult) (p : PartialResult) (now : Nat) :
    QueueItemResult :=
  let base := old.getD
    { pdfBlobUrl := none, pdfFilename := none, pdfSizeBytes := none
      driveFileId := none, webViewLink := none, completedAt := 0 }
  { pdfBlobUrl := match p.pdfBlobUrl with | some v => some v | none => base.pdfBlobUrl
    pdfFilename := match p.pdfFilename with | some v => some v | none => base.pdfFilename
    pdfSizeBytes := match p.pdfSizeBytes with | some v => some v | none => base.pdfSizeBytes
    driveFileId := match p.driveFileId with | some v => some v | none => base.driveFileId
    webViewLink := match p.webViewLink with | some v => some v | none => base.webViewLink
    completedAt := now }

/-- In-place mutation of the first list element satisfying `p`
(the JS `find`-then-mutate idiom). -/
def updateFirst (p : QueueItem → Bool) (f : QueueItem → QueueItem) :
    List QueueItem → List QueueItem
  | [] => []
  | x :: xs => if p x then f x :: xs else x :: updateFirst p f xs

/-- The mutation `QueueManager.updateItemStatus` performs on the found item. -/
def applyStatusUpdate (now : Nat) (status : QueueItemStatus)
    (result : Option PartialResult) (error : Option String) (item : QueueItem) :
    QueueItem :=
  let item := { item with status := status }
  let item :=
    if status == .processing && item.startedAt == none then
      { item with startedAt := some now }
    else item
  let item :=
    match result with
    | some r => { item with result := some (mergeResult item.result r now) }
    | none => item
  match error with
  | some e => { item with error := some e }
  | none => item

/-- `QueueManager.updateItemStatus`: no-op when the item id is absent,
otherwise mutates the found item and recalculates the totals. -/
def updateItemStatus (now : Nat) (itemId : String) (status : QueueItemStatus)
    (result : Option PartialResult) (error : Option String) (q : PostQueue) :
    PostQueue :=
  match q.items.find? (fun i => i.id == itemId) with
  | none => q
  | some _ =>
      let newItems :=
        updateFirst (fun i => i.id == itemId)
          (applyStatusUpdate now status result error) q.items
      recalculateTotals now { q with items := newItems }

/-- `QueueManager.clearQueue`. -/
def clearQueue (now : Nat) (_q : PostQueue) : PostQueue :=
  createEmptyQueue now

/-- `QueueManager.clearCompletedItems`. -/
def clearCompletedItems (now : Nat) (q : PostQueue) : PostQueue :=
  recalculateTotals now
    { q with items := q.items.filter (fun item => item.status != .completed) }

/-- `QueueManager.getPendingItems`. -/
def getPendingItems (q : PostQueue) : List QueueItem :=
  q.items.filter (fun item => item.status == .pending)

/-- `QueueManager.retryFailedItems`: resets every failed item to pending
(clearing its error and bumping `retryCount`); saves (and recalculates)
only when at least one item was reset. -/
def retryFailedItems (now : Nat) (q : PostQueue) : Nat × PostQueue :=
  let retriedCount := (q.items.filter (fun item => item.status == .failed)).length
  let items := q.items.map (fun item =>
    if item.status == .failed then
      { item with status := .pending, error := none, retryCount := item.retryCount + 1 }
    else item)
  if retriedCount > 0 then
    (retriedCount, recalculateTotals now { q with items := items })
  else
    (retriedCount, q)

/-! ## C1: derived counts invariant -/

/-- The derived counts are exactly those recomputed from the item list. -/
def countsOk (q : PostQueue) : Prop :=
  q.totalItems = q.items.length ∧
  q.pendingItems = (q.items.filter (fun i => i.status == .pending)).length ∧
  q.processingItems = (q.items.filter (fun i => i.status == .processing)).length ∧
  q.completedItems = (q.items.filter (fun i => i.status == .completed)).length ∧
  q.failedItems = (q.items.filter (fun i => i.status == .failed)).length ∧
  q.pendingItems + q.processingItems + q.completedItems + q.failedItems = q.totalItems

/-- One queue-store operation, with its effect parameters (`Date.now()`
values, fresh UUIDs, call arguments). -/
inductive QueueOp
  | add (uuid : String) (now : Nat) (post : CapturedPost)
  | remove (now : Nat) (itemId : String)
  | update (now : Nat) (itemId : String) (status : QueueItemStatus)
      (result : Option PartialResult) (error : Option String)
  | clear (now : Nat)
  | clearCompleted (now : Nat)
  | retryFailed (now : Nat)

def applyOp (q : PostQueue) : QueueOp → PostQueue
  | .add uuid now post => (addToQueue uuid now post q).2
  | .remove now itemId => removeFromQueue now itemId q
  | .update now itemId status result error => updateItemStatus now itemId status result error q
  | .clear now => clearQueue now q
  | .clearCompleted now => clearCompletedItems now q
  | .retryFailed now => (retryFailedItems now q).2

lemma statusFilterPartition (items : List QueueItem) :
    (items.filter (fun i => i.status == .pending)).length +
    (items.filter (fun i => i.status == .processing)).length +
    (items.filter (fun i => i.status == .completed)).length +
    (items.filter (fun i => i.status == .failed)).length = items.length := by
  induction items with
  | nil => rfl
  | cons x xs ih =>
    cases h : x.status <;> simp [List.filter_cons, h] <;> omega

lemma countsOk_recalculateTotals (now : Nat) (q : PostQueue) :
    countsOk (recalculateTotals now q) := by
  refine ⟨rfl, rfl, rfl, rfl, rfl, ?_⟩
  exact statusFilterPartition q.items

lemma countsOk_createEmptyQueue (now : Nat) : countsOk (createEmptyQueue now) := by
  refine ⟨rfl, rfl, rfl, rfl, rfl, rfl⟩

lemma countsOk_applyOp (q : PostQueue) (op : QueueOp) (h : countsOk q) :
    countsOk (applyOp q op) := by
  cases op with
  | add uuid now post =>
      simp only [applyOp, addToQueue]
      cases q.items.find? (fun item => item.postId == post.id) with
      | none => exact countsOk_recalculateTotals now _
      | some it => exact h
  | remove now itemId => exact countsOk_recalculateTotals now _
  | update now itemId status result error =>
      simp only [applyOp, updateItemStatus]
      cases q.items.find? (fun i => i.id == itemId) with
      | none => exact h
      | some it => exact countsOk_recalculateTotals now _
  | clear now => exact countsOk_createEmptyQueue now
  | clearCompleted now => exact countsOk_recalculateTotals now _
  | retryFailed now =>
      simp only [applyOp, retryFailedItems]
      by_cases hc :
          (q.items.filter (fun item => item.status == .failed)).length > 0 <;>
        simp [hc] <;> first
          | exact countsOk_recalculateTotals now _
          | exact h

lemma countsOk_foldl (ops : List QueueOp) :
    ∀ q : PostQueue, countsOk q → countsOk (ops.foldl applyOp q) := by
  induction ops with
  | nil => intro q h; exact h
  | cons op rest ih =>
      intro q h
      exact ih (applyOp q op) (countsOk_applyOp q op h)

/-- C1: starting from the empty queue, after every sequence of queue
operations (add, remove, update-status, clear, clear-completed,
retry-failed) the stored derived counts equal the counts recomputed from
the item list, and the four status counts sum to the total.  Since every
prefix of a sequence is itself a sequence, the invariant holds after each
individual operation returns. -/
theorem queue_counts_invariant (t0 : Nat) (ops : List QueueOp) :
    countsOk (ops.foldl applyOp (createEmptyQueue t0)) :=
  countsOk_foldl ops _ (countsOk_createEmptyQueue t0)

/-! ## C4: addToQueue is idempotent on the source post id -/

/-- C4: if an item whose `postId` equals the post's id is already in the
queue, `addToQueue` returns that item unchanged and leaves the whole queue
(items and counts) unchanged; otherwise it appends exactly one new item
with status pending, null result, null error and zero retryCount, and
recalculates the totals. -/
theorem addToQueue_idempotent (uuid : String) (now : Nat) (post : CapturedPost)
    (q : PostQueue) :
    (∀ it, q.items.find? (fun item => item.postId == post.id) = some it →
      addToQueue uuid now post q = (it, q)) ∧
    (q.items.find? (fun item => item.postId == post.id) = none →
      ∃ item, addToQueue uuid now post q =
          (item, recalculateTotals now { q with items := q.items ++ [item] }) ∧
        item.status = .pending ∧ item.result = none ∧ item.error = none ∧
        item.retryCount = 0 ∧ item.postId = post.id ∧ item.post = post) := by
  constructor
  · intro it hfind
    simp [addToQueue, hfind]
  · intro hfind
    refine ⟨createQueueItem uuid now post, ?_, rfl, rfl, rfl, rfl, rfl, rfl⟩
    simp [addToQueue, hfind]

def witnessPost : CapturedPost :=
  { id := "post-1", sourceUrl := "https://example.com/p/1", title := "t"
    description := "d", authorName := "a", authorId := "a1"
    captureTimestamp := 5, images := [], isVideo := false }

def witnessItem : QueueItem :=
  createQueueItem "item-1" 7 witnessPost

def witnessQueue : PostQueue :=
  recalculateTotals 7 { (createEmptyQueue 7) with items := [witnessItem] }

theorem addToQueue_idempotent_witness :
    addToQueue "item-2" 9 witnessPost witnessQueue = (witnessItem, witnessQueue) ∧
    (∃ item, addToQueue "item-2" 9 witnessPost (createEmptyQueue 0) =
        (item, recalculateTotals 9
          { (createEmptyQueue 0) with items := (createEmptyQueue 0).items ++ [item] }) ∧
      item.status = .pending ∧ item.result = none ∧ item.error = none ∧
      item.retryCount = 0 ∧ item.postId = witnessPost.id ∧ item.post = witnessPost) :=
  ⟨(addToQueue_idempotent "item-2" 9 witnessPost witnessQueue).1 witnessItem (by decide),
   (addToQueue_idempotent "item-2" 9 witnessPost (createEmptyQueue 0)).2 (by decide)⟩

/-! ## Batch processor (src/services/batch-processor.ts) -/

/-- `Math.round((num / den) * 100)` for nonnegative integers `num`,
`den > 0`, modelled exactly over rationals:
`round(x) = floor(x + 1/2)` and `floor(100 num / den + 1/2) =
(200 num + den) / (2 den)` in natural division. -/
def roundPercentage (num den : Nat) : Nat :=
  (200 * num + den) / (2 * den)

/-- `QueueProgress` (src/services/queue-manager.ts). -/
structure QueueProgress where
  percentage : Nat
  completed : Nat
  total : Nat
  successCount : Nat
  failedCount : Nat
  deriving DecidableEq, Repr

/-- `calculateQueueProgress`. -/
def calculateQueueProgress (q : PostQueue) : QueueProgress :=
  let total := q.totalItems
  let completed := q.completedItems + q.failedItems
  let percentage := if total == 0 then 0 else roundPercentage completed total
  { percentage := percentage
    completed := completed
    total := total
    successCount := q.completedItems
    failedCount := q.failedItems }

inductive Phase
  | idle
  | generating_pdf
  | uploading
  | complete
  deriving DecidableEq, Repr

structure BatchProgress where
  percentage : Nat
  completed : Nat
  total : Nat
  successCount : Nat
  failedCount : Nat
  currentItem : Option String
  phase : Phase
  cancelled : Bool
  deriving DecidableEq, Repr

/-- `BatchProcessorOptions`; optional TS fields are `Option`, their
defaults (`continueOnError = true`, `maxRetries = 1`) are applied by
`processQueue` exactly as the destructuring in the source does. -/
structure BatchProcessorOptions where
  uploadToDrive : Bool
  folderId : Option String := none
  continueOnError : Option Bool := none
  maxRetries : Option Nat := none

/-- Result record of `generatePdf` (src/services/pdf-generator.ts). -/
structure PdfGenerationResult where
  capturedPostId : String
  pdfBase64 : String
  filename : String
  sizeBytes : Nat
  generatedAt : Nat
  pageCount : Nat
  imagesIncluded : Bool
  failedImageCount : Nat
  deriving DecidableEq, Repr

/-- `UploadResult` (drive uploader). -/
structure UploadResult where
  success : Bool
  fileId : Option String := none
  webViewLink : Option String := none
  webContentLink : Option String := none
  error : Option String := none
  deriving DecidableEq, Repr

/-- The JS truthiness fallback `s || d` on an optional string
(`undefined`, `null` and `""` all fall back to the default). -/
def jsOrDefault (s : Option String) (d : String) : String :=
  match s with
  | some v => if v = "" then d else v
  | none => d

/-- Oracle for the external effects of one `processQueue` run:
`generatePdf` outcomes (`.error` = the awaited promise rejected),
`getAccessToken` outcomes (`none` = no token), `uploadToDrive` outcomes,
indexed by (item index in the pending snapshot, attempt index).
`cancelAt = some k` records that a concurrent `cancel()` call raised
the cancellation flag in time for the loop boundary before item `k`
(the flag is monotone: once raised it stays raised); `none` means no
cancellation arrives during the run.  `now` models `Date.now()`. -/
structure BatchEnv where
  genPdf : Nat → Nat → Except String PdfGenerationResult
  token : Nat → Nat → Option String
  upload : Nat → Nat → UploadResult
  cancelAt : Option Nat
  now : Nat

/-- The `this.cancelled` flag as observed at the boundary before item `i`. -/
def cancelFlag (env : BatchEnv) (i : Nat) : Bool :=
  match env.cancelAt with
  | some k => Nat.ble k i
  | none => false

/-- The `BatchProcessor` instance fields. -/
structure BPState where
  cancelled : Bool
  processing : Bool
  deriving DecidableEq, Repr

/-- Mutable state threaded through one run: the stored queue, the
`progress` object, the trace of snapshots passed to `onProgress`, the
trace of `delay(ms)` calls, and the number of `getAccessToken` calls. -/
structure RunState where
  queue : PostQueue
  progress : BatchProgress
  events : List BatchProgress
  delays : List Nat
  authCalls : Nat
  deriving Repr

/-- `onProgress?.(progress)`: record the current snapshot. -/
def emit (st : RunState) : RunState :=
  { st with events := st.events ++ [st.progress] }

/-- `BatchProcessor.processItem`: set the item to processing, generate
the PDF, store the PDF result, and (when requested) fetch a token and
upload.  Returns the mutated state plus `some message` when the TS method
would throw, `none` when it returns `true`. -/
def processItem (env : BatchEnv) (shouldUpload : Bool) (_folderId : Option String)
    (i attempt : Nat) (item : QueueItem) (st : RunState) :
    RunState × Option String :=
  let st := { st with queue := updateItemStatus env.now item.id .processing none none st.queue }
  let st := emit { st with progress := { st.progress with phase := .generating_pdf } }
  match env.genPdf i attempt with
  | .error msg => (st, some msg)
  | .ok pdfResult =>
    let pdfPartial : PartialResult :=
      { pdfFilename := some pdfResult.filename, pdfSizeBytes := some pdfResult.sizeBytes }
    let q2 := updateItemStatus env.now item.id .processing (some pdfPartial) none st.queue
    let st := { st with queue := q2 }
    if shouldUpload then
      let st := emit { st with progress := { st.progress with phase := .uploading } }
      let st := { st with authCalls := st.authCalls + 1 }
      match env.token i attempt with
      | none => (st, some "Not authenticated")
      | some _tok =>
        let uploadResult := env.upload i attempt
        if uploadResult.success = false then
          (st, some (jsOrDefault uploadResult.error "Upload failed"))
        else
          let drivePartial : PartialResult :=
            { driveFileId := uploadResult.fileId, webViewLink := uploadResult.webViewLink }
          let q3 := updateItemStatus env.now item.id .processing (some drivePartial) none st.queue
          let st := { st with queue := q3 }
          (st, none)
    else (st, none)

/-- The per-item retry loop `for (attempt = 0; attempt < maxRetries; attempt++)`,
structured over the number of remaining iterations.  Any thrown error is
caught, remembered as `lastError`, and followed by a
`delay(1000 * (attempt + 1))` unless this was the last attempt. -/
def attemptLoop (env : BatchEnv) (shouldUpload : Bool) (folderId : Option String)
    (maxRetries : Nat) (i : Nat) (item : QueueItem) :
    Nat → Nat → Option String → RunState → RunState × Bool × Option String
  | _, 0, lastError, st => (st, false, lastError)
  | attempt, rem + 1, lastError, st =>
    match processItem env shouldUpload folderId i attempt item st with
    | (st, none) => (st, true, lastError)
    | (st, some msg) =>
      let st :=
        if attempt < maxRetries - 1 then
          { st with delays := st.delays ++ [1000 * (attempt + 1)] }
        else st
      attemptLoop env shouldUpload folderId maxRetries i item (attempt + 1) rem (some msg) st

/-- The main `for (const item of pendingItems)` loop of `processQueue`,
with `i` the index of the head of `rest` in the pending snapshot. -/
def runItems (env : BatchEnv) (shouldUpload : Bool) (folderId : Option String)
    (continueOnError : Bool) (maxRetries : Nat) (total : Nat) :
    Nat → List QueueItem → RunState → RunState
  | _, [], st => st
  | i, item :: rest, st =>
    if cancelFlag env i then
      emit { st with progress := { st.progress with cancelled := true, phase := .complete } }
    else
      let st := { st with progress := { st.progress with currentItem := some item.post.title } }
      let r := attemptLoop env shouldUpload folderId maxRetries i item 0 maxRetries none st
      let st := r.1
      let success := r.2.1
      let lastError := r.2.2
      let st :=
        if success then
          { st with
            progress := { st.progress with successCount := st.progress.successCount + 1 }
            queue := updateItemStatus env.now item.id .completed
              (some { completedAt := some env.now }) none st.queue }
        else
          { st with
            progress := { st.progress with failedCount := st.progress.failedCount + 1 }
            queue := updateItemStatus env.now item.id .failed none lastError st.queue }
      let st := { st with progress := { st.progress with
        completed := st.progress.completed + 1 } }
      let st := { st with progress := { st.progress with
        percentage := roundPercentage st.progress.completed total } }
      let st := emit st
      if success = false && continueOnError = false then st
      else runItems env shouldUpload folderId continueOnError maxRetries total (i + 1) rest st

/-- `BatchProcessor.processQueue`.  Returns the final `BatchProgress`,
the instance state, and the full run trace (final queue, emitted
snapshots, delays).  Note the method never branches on
`state.processing`: there is no guard against a concurrently active run. -/
def processQueue (env : BatchEnv) (options : BatchProcessorOptions)
    (state : BPState) (q : PostQueue) : BatchProgress × BPState × RunState :=
  let shouldUpload := options.uploadToDrive
  let folderId := options.folderId
  let continueOnError := options.continueOnError.getD true
  let maxRetries := options.maxRetries.getD 1
  let state := { state with cancelled := false, processing := true }
  let pendingItems := getPendingItems q
  let total := pendingItems.length
  let progress : BatchProgress :=
    { percentage := 0, completed := 0, total := total, successCount := 0
      failedCount := 0, currentItem := none, phase := .idle, cancelled := false }
  let st : RunState :=
    { queue := q, progress := progress, events := [], delays := [], authCalls := 0 }
  if total = 0 then
    let st := emit { st with progress := { st.progress with phase := .complete, percentage := 100 } }
    (st.progress, { state with processing := false }, st)
  else
    let st := runItems env shouldUpload folderId continueOnError maxRetries total 0 pendingItems st
    let st := emit { st with progress := { st.progress with phase := .complete, currentItem := none } }
    (st.progress, { state with processing := false }, st)

/-! ## Queue message handler (background handler handleProcessQueue) -/

/-- Outcome of `handleProcessQueue`: an error response, the trivial
"no items to process" success, or a started run. -/
inductive HandlerResult
  | errorResponse (code : String) (message : String)
  | noItems
  | started (run : BatchProgress × BPState × RunState)

/-- `handleProcessQueue`: is rejected when `isProcessing()` (the
`processing` instance flag) is set, answers trivially when no items are
pending, and otherwise starts `processQueue` with `continueOnError = true`
and `maxRetries = 2`. -/
def handleProcessQueue (env : BatchEnv) (uploadOpt : Bool) (folderId : Option String)
    (state : BPState) (q : PostQueue) : HandlerResult :=
  if state.processing then
    .errorResponse "PROCESSING_IN_PROGRESS" "Batch processing already in progress"
  else
    let pendingItems := getPendingItems q
    if pendingItems.length = 0 then
      .noItems
    else
      .started (processQueue env
        { uploadToDrive := uploadOpt, folderId := folderId
          continueOnError := some true, maxRetries := some 2 } state q)

/-! ## C2: no "processing in progress" guard inside processQueue -/

/-- Environment for concrete counterexample runs: PDF generation always
succeeds, upload is never requested, no cancellation arrives. -/
def plainPdf : PdfGenerationResult :=
  { capturedPostId := "post-1", pdfBase64 := "", filename := "t.pdf"
    sizeBytes := 3, generatedAt := 10, pageCount := 1
    imagesIncluded := false, failedImageCount := 0 }

def envPlain : BatchEnv :=
  { genPdf := fun _ _ => .ok plainPdf
    token := fun _ _ => some "tok"
    upload := fun _ _ => { success := true }
    cancelAt := none
    now := 10 }

/-- C2 counterexample: calling `processQueue` while `processing = true`
(a run already active) is NOT rejected: on a queue with one pending item
the second call performs a full run — it returns an ordinary completed
progress with one processed item and mutates the stored queue (the
pending item ends up `completed`), rather than failing with a
"processing in progress" signal. -/
theorem processQueue_no_guard_counterexample :
    (processQueue envPlain { uploadToDrive := false } ⟨false, true⟩ witnessQueue).1.completed = 1 ∧
    (processQueue envPlain { uploadToDrive := false } ⟨false, true⟩ witnessQueue).1.phase = .complete ∧
    (processQueue envPlain { uploadToDrive := false } ⟨false, true⟩ witnessQueue).1.successCount = 1 ∧
    ((processQueue envPlain { uploadToDrive := false } ⟨false, true⟩
        witnessQueue).2.2.queue.items.map (fun it => it.status)) =
      [QueueItemStatus.completed] := by
  decide

/-- C2 amended: `BatchProcessor.processQueue` itself has no guard — its
behaviour is independent of the `processing` flag, so a second direct
call proceeds as a fresh run instead of being rejected.  The
"processing in progress" rejection lives one level up: the message
handler `handleProcessQueue` checks `isProcessing()` and answers a
`PROCESSING_IN_PROGRESS` error synchronously, without starting
`processQueue` or touching any state. -/
theorem processQueue_guard_in_handler :
    (∀ (env : BatchEnv) (uploadOpt : Bool) (folderId : Option String)
        (state : BPState) (q : PostQueue), state.processing = true →
      handleProcessQueue env uploadOpt folderId state q =
        .errorResponse "PROCESSING_IN_PROGRESS" "Batch processing already in progress") ∧
    (∀ (env : BatchEnv) (options : BatchProcessorOptions) (c : Bool) (q : PostQueue),
      processQueue env options ⟨c, true⟩ q = processQueue env options ⟨c, false⟩ q) := by
  constructor
  · intro env uploadOpt folderId state q h
    simp [handleProcessQueue, h]
  · intro env options c q
    rfl

theorem processQueue_guard_in_handler_witness :
    handleProcessQueue envPlain false none ⟨false, true⟩ witnessQueue =
      .errorResponse "PROCESSING_IN_PROGRESS" "Batch processing already in progress" ∧
    processQueue envPlain { uploadToDrive := false } ⟨true, true⟩ witnessQueue =
      processQueue envPlain { uploadToDrive := false } ⟨true, false⟩ witnessQueue :=
  ⟨(processQueue_guard_in_handler).1 envPlain false none ⟨false, true⟩ witnessQueue rfl,
   (processQueue_guard_in_handler).2 envPlain { uploadToDrive := false } true witnessQueue⟩

/-! ## C7: empty pending snapshot -/

/-- C7: when the pending snapshot is empty, `processQueue` immediately
returns a progress with `phase = complete` and `percentage = 100`,
invokes the progress callback exactly once (with that very snapshot),
and leaves the stored queue completely untouched. -/
theorem processQueue_empty_pending (env : BatchEnv) (options : BatchProcessorOptions)
    (state : BPState) (q : PostQueue) (h : getPendingItems q = []) :
    (processQueue env options state q).1.phase = .complete ∧
    (processQueue env options state q).1.percentage = 100 ∧
    (processQueue env options state q).2.2.events =
      [(processQueue env options state q).1] ∧
    (processQueue env options state q).2.2.queue = q := by
  simp only [processQueue, h]
  exact ⟨rfl, rfl, rfl, rfl⟩

def doneItem : QueueItem :=
  { createQueueItem "item-9" 3 witnessPost with status := .completed }

def doneQueue : PostQueue :=
  recalculateTotals 3 { (createEmptyQueue 3) with items := [doneItem] }

theorem processQueue_empty_pending_witness :
    (processQueue envPlain { uploadToDrive := false } ⟨false, false⟩ doneQueue).1.phase =
        .complete ∧
    (processQueue envPlain { uploadToDrive := false } ⟨false, false⟩ doneQueue).1.percentage =
        100 ∧
    (processQueue envPlain { uploadToDrive := false } ⟨false, false⟩ doneQueue).2.2.events =
      [(processQueue envPlain { uploadToDrive := false } ⟨false, false⟩ doneQueue).1] ∧
    (processQueue envPlain { uploadToDrive := false } ⟨false, false⟩ doneQueue).2.2.queue =
      doneQueue :=
  processQueue_empty_pending envPlain { uploadToDrive := false } ⟨false, false⟩ doneQueue
    (by decide)

/-! ## Frame lemmas about the queue store -/

lemma applyStatusUpdate_id (now : Nat) (status : QueueItemStatus)
    (result : Option PartialResult) (error : Option String) (item : QueueItem) :
    (applyStatusUpdate now status result error item).id = item.id := by
  simp only [applyStatusUpdate]
  cases result <;> cases error <;> (repeat' split) <;> rfl

lemma updateFirst_find?_ne (itemId id' : String) (h : (id' == itemId) = false)
    (f : QueueItem → QueueItem) (hf : ∀ x, (f x).id = x.id) :
    ∀ l : List QueueItem,
      (updateFirst (fun i => i.id == itemId) f l).find? (fun x => x.id == id') =
        l.find? (fun x => x.id == id') := by
  intro l
  induction l with
  | nil => rfl
  | cons x xs ih =>
    by_cases hx : (x.id == itemId) = true
    · have hx1 : x.id = itemId := by
        simpa using hx
      have hne : ((f x).id == id') = false := by
        rw [hf x, hx1]
        rw [beq_eq_false_iff_ne] at h ⊢
        exact fun hc => h hc.symm
      have hne2 : (x.id == id') = false := by
        rw [hx1]
        rw [beq_eq_false_iff_ne] at h ⊢
        exact fun hc => h hc.symm
      simp [updateFirst, hx, List.find?, hne, hne2]
    · have hx2 : (x.id == itemId) = false := by
        simpa using hx
      by_cases hy : (x.id == id') = true
      · simp [updateFirst, hx2, List.find?, hy]
      · have hy2 : (x.id == id') = false := by
          simpa using hy
        simp [updateFirst, hx2, List.find?, hy2, ih]

lemma updateItemStatus_find?_ne (now : Nat) (itemId : String)
    (status : QueueItemStatus) (result : Option PartialResult)
    (error : Option String) (q : PostQueue) (id' : String)
    (h : (id' == itemId) = false) :
    (updateItemStatus now itemId status result error q).items.find?
        (fun x => x.id == id') =
      q.items.find? (fun x => x.id == id') := by
  simp only [updateItemStatus]
  cases q.items.find? (fun i => i.id == itemId) with
  | none => rfl
  | some it =>
      simp only [recalculateTotals]
      exact updateFirst_find?_ne itemId id' h _
        (applyStatusUpdate_id now status result error) q.items

lemma find?_self_of_nodup (items : List QueueItem)
    (hnd : (items.map (fun it => it.id)).Nodup) :
    ∀ it ∈ items, items.find? (fun x => x.id == it.id) = some it := by
  induction items with
  | nil => intro it h; cases h
  | cons x xs ih =>
    intro it hit
    rcases List.mem_cons.mp hit with rfl | hmem
    · simp [List.find?]
    · have hnd2 := hnd
      rw [List.map_cons, List.nodup_cons] at hnd2
      have hxne : (x.id == it.id) = false := by
        rw [beq_eq_false_iff_ne]
        intro hc
        exact hnd2.1 (hc ▸ List.mem_map_of_mem (fun it => it.id) hmem)
      simp only [List.find?, hxne]
      exact ih hnd2.2 it hmem

/-! ## Frame lemmas about processItem and the retry loop -/

lemma processItem_progress_phase (env : BatchEnv) (shouldUpload : Bool)
    (folderId : Option String) (i attempt : Nat) (item : QueueItem) (st : RunState) :
    ∃ ph, (processItem env shouldUpload folderId i attempt item st).1.progress =
      { st.progress with phase := ph } := by
  simp only [processItem, emit]
  cases env.genPdf i attempt with
  | error msg => exact ⟨.generating_pdf, rfl⟩
  | ok p =>
    cases shouldUpload with
    | false => exact ⟨.generating_pdf, rfl⟩
    | true =>
      cases env.token i attempt with
      | none => exact ⟨.uploading, rfl⟩
      | some tok =>
        by_cases hu : (env.upload i attempt).success = false <;> simp [hu]

lemma processItem_events (env : BatchEnv) (shouldUpload : Bool)
    (folderId : Option String) (i attempt : Nat) (item : QueueItem) (st : RunState) :
    ∃ es, (processItem env shouldUpload folderId i attempt item st).1.events =
        st.events ++ es ∧
      ∀ p ∈ es, ∃ ph, p = { st.progress with phase := ph } := by
  simp only [processItem, emit]
  cases env.genPdf i attempt with
  | error msg =>
    exact ⟨[{ st.progress with phase := .generating_pdf }], rfl,
      by intro p hp; simp at hp; exact ⟨.generating_pdf, hp⟩⟩
  | ok p =>
    cases shouldUpload with
    | false =>
      exact ⟨[{ st.progress with phase := .generating_pdf }], rfl,
        by intro p hp; simp at hp; exact ⟨.generating_pdf, hp⟩⟩
    | true =>
      have hgoal : ∀ p ∈ [{ st.progress with phase := Phase.generating_pdf },
          { st.progress with phase := Phase.uploading }],
          ∃ ph, p = { st.progress with phase := ph } := by
        intro p hp
        simp at hp
        rcases hp with rfl | rfl
        · exact ⟨.generating_pdf, rfl⟩
        · exact ⟨.uploading, rfl⟩
      cases env.token i attempt with
      | none => exact ⟨_, by simp, hgoal⟩
      | some tok =>
        by_cases hu : (env.upload i attempt).success = false <;>
          exact ⟨_, by simp [hu], hgoal⟩

lemma processItem_queue_ne (env : BatchEnv) (shouldUpload : Bool)
    (folderId : Option String) (i attempt : Nat) (item : QueueItem) (st : RunState)
    (id' : String) (h : (id' == item.id) = false) :
    (processItem env shouldUpload folderId i attempt item st).1.queue.items.find?
        (fun x => x.id == id') =
      st.queue.items.find? (fun x => x.id == id') := by
  simp only [processItem, emit]
  cases env.genPdf i attempt with
  | error msg => exact updateItemStatus_find?_ne _ _ _ _ _ _ _ h
  | ok p =>
    cases shouldUpload with
    | false =>
      simp [updateItemStatus_find?_ne _ _ _ _ _ _ _ h]
    | true =>
      cases env.token i attempt with
      | none =>
        simp [updateItemStatus_find?_ne _ _ _ _ _ _ _ h]
      | some tok =>
        by_cases hu : (env.upload i attempt).success = false <;>
          simp [updateItemStatus_find?_ne _ _ _ _ _ _ _ h, hu]

lemma processItem_delays (env : BatchEnv) (shouldUpload : Bool)
    (folderId : Option String) (i attempt : Nat) (item : QueueItem) (st : RunState) :
    (processItem env shouldUpload folderId i attempt item st).1.delays = st.delays := by
  simp only [processItem, emit]
  cases env.genPdf i attempt with
  | error msg => rfl
  | ok p =>
    cases shouldUpload with
    | false => rfl
    | true =>
      cases env.token i attempt with
      | none => rfl
      | some tok =>
        by_cases hu : (env.upload i attempt).success = false <;> simp [hu]

/-- Across the whole per-item retry loop: the `progress` object changes
only in its `phase` field, queue items other than the processed one are
untouched, and every newly emitted snapshot is a phase-variant of the
incoming progress. -/
lemma attemptLoop_state (env : BatchEnv) (shouldUpload : Bool)
    (folderId : Option String) (maxRetries i : Nat) (item : QueueItem) :
    ∀ (rem attempt : Nat) (lastErr : Option String) (st : RunState),
      (∃ ph, (attemptLoop env shouldUpload folderId maxRetries i item
          attempt rem lastErr st).1.progress = { st.progress with phase := ph }) ∧
      (∀ id', (id' == item.id) = false →
        (attemptLoop env shouldUpload folderId maxRetries i item
            attempt rem lastErr st).1.queue.items.find? (fun x => x.id == id') =
          st.queue.items.find? (fun x => x.id == id')) ∧
      (∃ es, (attemptLoop env shouldUpload folderId maxRetries i item
            attempt rem lastErr st).1.events = st.events ++ es ∧
        ∀ p ∈ es, ∃ ph, p = { st.progress with phase := ph }) := by
  intro rem
  induction rem with
  | zero =>
    intro attempt lastErr st
    exact ⟨⟨st.progress.phase, rfl⟩, fun id' _ => rfl, ⟨[], by simp [attemptLoop], by simp⟩⟩
  | succ rem ih =>
    intro attempt lastErr st
    rcases hpi : processItem env shouldUpload folderId i attempt item st with ⟨st2, res⟩
    obtain ⟨ph1, hph1⟩ := processItem_progress_phase env shouldUpload folderId i attempt item st
    obtain ⟨es1, hes1, hes1P⟩ := processItem_events env shouldUpload folderId i attempt item st
    rw [hpi] at hph1 hes1
    cases res with
    | none =>
      have hq := fun id' h =>
        processItem_queue_ne env shouldUpload folderId i attempt item st id' h
      simp only [hpi] at hq
      simp only [attemptLoop, hpi]
      exact ⟨⟨ph1, hph1⟩, hq, ⟨es1, hes1, hes1P⟩⟩
    | some msg =>
      have hq := fun id' h =>
        processItem_queue_ne env shouldUpload folderId i attempt item st id' h
      simp only [hpi] at hq
      set st3 := if attempt < maxRetries - 1 then
          { st2 with delays := st2.delays ++ [1000 * (attempt + 1)] }
        else st2 with hst3
      have h3p : st3.progress = st2.progress := by
        rw [hst3]; split <;> rfl
      have h3q : st3.queue = st2.queue := by
        rw [hst3]; split <;> rfl
      have h3e : st3.events = st2.events := by
        rw [hst3]; split <;> rfl
      have hloop : attemptLoop env shouldUpload folderId maxRetries i item
          attempt (rem + 1) lastErr st =
          attemptLoop env shouldUpload folderId maxRetries i item
            (attempt + 1) rem (some msg) st3 := by
        simp only [attemptLoop, hpi]
      obtain ⟨hih1, hih2, hih3⟩ := ih (attempt + 1) (some msg) st3
      rw [hloop]
      refine ⟨?_, ?_, ?_⟩
      · obtain ⟨ph2, hph2⟩ := hih1
        exact ⟨ph2, by rw [hph2, h3p, hph1]⟩
      · intro id' h
        rw [hih2 id' h, h3q, hq id' h]
      · obtain ⟨es2, hes2, hes2P⟩ := hih3
        refine ⟨es1 ++ es2, ?_, ?_⟩
        · rw [hes2, h3e, hes1, List.append_assoc]
        · intro p hp
          rcases List.mem_append.mp hp with hp1 | hp2
          · exact hes1P p hp1
          · obtain ⟨ph3, hph3⟩ := hes2P p hp2
            exact ⟨ph3, by rw [hph3, h3p, hph1]⟩

/-- The non-cancelled iteration of the `processQueue` loop, as a function
of the current state; returns the state after the final per-item
`onProgress` call together with the item's success flag. -/
def runItemsBody (env : BatchEnv) (shouldUpload : Bool) (folderId : Option String)
    (maxRetries total i : Nat) (item : QueueItem) (st : RunState) : RunState × Bool :=
  let st := { st with progress := { st.progress with currentItem := some item.post.title } }
  let r := attemptLoop env shouldUpload folderId maxRetries i item 0 maxRetries none st
  let st := r.1
  let success := r.2.1
  let lastError := r.2.2
  let st :=
    if success then
      { st with
        progress := { st.progress with successCount := st.progress.successCount + 1 }
        queue := updateItemStatus env.now item.id .completed
          (some { completedAt := some env.now }) none st.queue }
    else
      { st with
        progress := { st.progress with failedCount := st.progress.failedCount + 1 }
        queue := updateItemStatus env.now item.id .failed none lastError st.queue }
  let st := { st with progress := { st.progress with
    completed := st.progress.completed + 1 } }
  let st := { st with progress := { st.progress with
    percentage := roundPercentage st.progress.completed total } }
  let st := emit st
  (st, success)

lemma runItems_cons_eq (env : BatchEnv) (shouldUpload : Bool) (folderId : Option String)
    (continueOnError : Bool) (maxRetries total i : Nat) (item : QueueItem)
    (rest : List QueueItem) (st : RunState) (h : cancelFlag env i = false) :
    runItems env shouldUpload folderId continueOnError maxRetries total i
        (item :: rest) st =
      (if (runItemsBody env shouldUpload folderId maxRetries total i item st).2 = false ∧
          continueOnError = false then
        (runItemsBody env shouldUpload folderId maxRetries total i item st).1
      else
        runItems env shouldUpload folderId continueOnError maxRetries total (i + 1) rest
          (runItemsBody env shouldUpload folderId maxRetries total i item st).1) := by
  simp only [runItems, h, runItemsBody, Bool.false_eq_true, if_false, Bool.and_eq_true,
    decide_eq_true_eq]

lemma runItems_cons_cancel (env : BatchEnv) (shouldUpload : Bool)
    (folderId : Option String) (continueOnError : Bool) (maxRetries total i : Nat)
    (item : QueueItem) (rest : List QueueItem) (st : RunState)
    (h : cancelFlag env i = true) :
    runItems env shouldUpload folderId continueOnError maxRetries total i
        (item :: rest) st =
      emit { st with progress :=
        { st.progress with cancelled := true, phase := .complete } } := by
  simp only [runItems, h, if_true]

/-- One non-cancelled loop iteration: `completed` goes up by exactly one,
`total` and `cancelled` are untouched, the percentage is recomputed from
the new completed count, other queue items are untouched, and every newly
emitted snapshot carries either the old or the new
(percentage, completed, total) triple. -/
lemma runItemsBody_spec (env : BatchEnv) (shouldUpload : Bool)
    (folderId : Option String) (maxRetries total i : Nat) (item : QueueItem)
    (st : RunState) :
    (runItemsBody env shouldUpload folderId maxRetries total i item st).1.progress.completed =
        st.progress.completed + 1 ∧
    (runItemsBody env shouldUpload folderId maxRetries total i item st).1.progress.total =
        st.progress.total ∧
    (runItemsBody env shouldUpload folderId maxRetries total i item st).1.progress.cancelled =
        st.progress.cancelled ∧
    (runItemsBody env shouldUpload folderId maxRetries total i item st).1.progress.percentage =
        roundPercentage (st.progress.completed + 1) total ∧
    (∀ id', (id' == item.id) = false →
      (runItemsBody env shouldUpload folderId maxRetries total i item
          st).1.queue.items.find? (fun x => x.id == id') =
        st.queue.items.find? (fun x => x.id == id')) ∧
    (∀ p ∈ (runItemsBody env shouldUpload folderId maxRetries total i item st).1.events,
      p ∈ st.events ∨
      (p.completed = st.progress.completed ∧ p.total = st.progress.total ∧
        p.percentage = st.progress.percentage) ∨
      (p.completed = st.progress.completed + 1 ∧ p.total = st.progress.total ∧
        p.percentage = roundPercentage (st.progress.completed + 1) total)) := by
  obtain ⟨⟨ph, hph⟩, hq, ⟨es1, hes1, hes1P⟩⟩ :=
    attemptLoop_state env shouldUpload folderId maxRetries i item maxRetries 0 none
      { st with progress := { st.progress with currentItem := some item.post.title } }
  dsimp only at hph hq hes1 hes1P
  simp only [runItemsBody, emit]
  cases hsucc : (attemptLoop env shouldUpload folderId maxRetries i item 0 maxRetries none
      { st with progress := { st.progress with currentItem := some item.post.title } }).2.1 <;>
    simp only [hsucc, Bool.false_eq_true, if_false, if_true] <;>
    refine ⟨by simp [hph], by simp [hph], by simp [hph], by simp [hph],
      fun id' h => by simp [updateItemStatus_find?_ne _ _ _ _ _ _ _ h, hq id' h], ?_⟩ <;>
    intro p hp <;>
    simp only [hes1, List.mem_append, List.mem_singleton] at hp <;>
    rcases hp with (hp0 | hp1) | hp2
  case _ => exact Or.inl hp0
  case _ =>
    obtain ⟨ph2, hph2⟩ := hes1P p hp1
    exact Or.inr (Or.inl (by simp [hph2]))
  case _ =>
    subst hp2
    exact Or.inr (Or.inr (by simp [hph]))
  case _ => exact Or.inl hp0
  case _ =>
    obtain ⟨ph2, hph2⟩ := hes1P p hp1
    exact Or.inr (Or.inl (by simp [hph2]))
  case _ =>
    subst hp2
    exact Or.inr (Or.inr (by simp [hph]))

/-! ## C8: the percentage formula of emitted snapshots -/

/-- The percentage discipline actually maintained by the code: the
rounded ratio whenever the snapshot's total is positive, and the literal
100 emitted by the empty-queue branch when the total is zero. -/
def pctOk (p : BatchProgress) : Prop :=
  (0 < p.total → p.percentage = roundPercentage p.completed p.total) ∧
  (p.total = 0 → p.percentage = 100)

lemma pctOk_of_core (p q : BatchProgress) (h1 : p.completed = q.completed)
    (h2 : p.total = q.total) (h3 : p.percentage = q.percentage) (h : pctOk q) :
    pctOk p := by
  constructor
  · intro hlt
    rw [h3, h1, h2]
    exact h.1 (h2 ▸ hlt)
  · intro h0
    rw [h3]
    exact h.2 (h2 ▸ h0)

lemma roundPercentage_zero (d : Nat) (h : 0 < d) : roundPercentage 0 d = 0 := by
  simp only [roundPercentage, Nat.mul_zero, Nat.zero_add]
  exact Nat.div_eq_of_lt (by omega)

/-- Loop invariant: with a positive total, every state reachable by the
item loop keeps `percentage = roundPercentage completed total` in its
progress object and in every emitted snapshot. -/
lemma runItems_pctOk (env : BatchEnv) (shouldUpload : Bool) (folderId : Option String)
    (continueOnError : Bool) (maxRetries total : Nat) (h0 : 0 < total) :
    ∀ (rest : List QueueItem) (i : Nat) (st : RunState),
      st.progress.total = total → pctOk st.progress → (∀ p ∈ st.events, pctOk p) →
      pctOk (runItems env shouldUpload folderId continueOnError maxRetries total
        i rest st).progress ∧
      (runItems env shouldUpload folderId continueOnError maxRetries total
        i rest st).progress.total = total ∧
      (∀ p ∈ (runItems env shouldUpload folderId continueOnError maxRetries total
          i rest st).events, pctOk p) := by
  intro rest
  induction rest with
  | nil =>
    intro i st hT hP hE
    exact ⟨hP, hT, hE⟩
  | cons item rest ih =>
    intro i st hT hP hE
    cases hc : cancelFlag env i with
    | true =>
      rw [runItems_cons_cancel env shouldUpload folderId continueOnError maxRetries
        total i item rest st hc]
      refine ⟨pctOk_of_core _ st.progress rfl rfl rfl hP, hT, ?_⟩
      intro p hp
      simp only [emit, List.mem_append, List.mem_singleton] at hp
      rcases hp with hp | rfl
      · exact hE p hp
      · exact pctOk_of_core _ st.progress rfl rfl rfl hP
    | false =>
      rw [runItems_cons_eq env shouldUpload folderId continueOnError maxRetries
        total i item rest st hc]
      obtain ⟨hc1, hc2, _, hc4, _, hev⟩ :=
        runItemsBody_spec env shouldUpload folderId maxRetries total i item st
      have hBP : pctOk (runItemsBody env shouldUpload folderId maxRetries total
          i item st).1.progress := by
        constructor
        · intro _
          rw [hc4, hc1, hc2, hT]
        · intro hzero
          rw [hc2, hT] at hzero
          omega
      have hBT : (runItemsBody env shouldUpload folderId maxRetries total
          i item st).1.progress.total = total := by rw [hc2, hT]
      have hBE : ∀ p ∈ (runItemsBody env shouldUpload folderId maxRetries total
          i item st).1.events, pctOk p := by
        intro p hp
        rcases hev p hp with hp0 | hcore | hcore
        · exact hE p hp0
        · exact pctOk_of_core _ st.progress hcore.1 hcore.2.1 hcore.2.2 hP
        · constructor
          · intro _
            rw [hcore.2.2, hcore.1, hcore.2.1, hT]
          · intro hzero
            rw [hcore.2.1, hT] at hzero
            omega
      split
      · exact ⟨hBP, hBT, hBE⟩
      · exact ih (i + 1) _ hBT hBP hBE

/-! ## C6: early stop leaves unreached items untouched -/

lemma mem_of_getElemSome {α : Type} {l : List α} {j : Nat} {a : α}
    (h : l[j]? = some a) : a ∈ l := by
  rw [List.getElem?_eq_some] at h
  obtain ⟨hlt, rfl⟩ := h
  exact List.getElem_mem hlt

/-- Frame invariant of the item loop: `completed` never decreases, and a
snapshot item whose position was never reached (the final completed count
stayed at or below the item's position relative to the incoming count)
is still stored unchanged in the final queue. -/
lemma runItems_frame (env : BatchEnv) (shouldUpload : Bool) (folderId : Option String)
    (continueOnError : Bool) (maxRetries total : Nat) :
    ∀ (rest : List QueueItem) (i : Nat) (st : RunState),
      (∀ it ∈ rest, st.queue.items.find? (fun x => x.id == it.id) = some it) →
      ((rest.map (fun it => it.id)).Nodup) →
      st.progress.completed ≤ (runItems env shouldUpload folderId continueOnError
        maxRetries total i rest st).progress.completed ∧
      ∀ j it, rest[j]? = some it →
        (runItems env shouldUpload folderId continueOnError maxRetries total
            i rest st).progress.completed ≤ st.progress.completed + j →
        (runItems env shouldUpload folderId continueOnError maxRetries total
            i rest st).queue.items.find? (fun x => x.id == it.id) = some it := by
  intro rest
  induction rest with
  | nil =>
    intro i st _ _
    refine ⟨le_refl _, ?_⟩
    intro j it hj
    simp at hj
  | cons item rest ih =>
    intro i st hfound hnd
    cases hc : cancelFlag env i with
    | true =>
      rw [runItems_cons_cancel env shouldUpload folderId continueOnError maxRetries
        total i item rest st hc]
      refine ⟨le_refl _, ?_⟩
      intro j it hj _
      exact hfound it (mem_of_getElemSome hj)
    | false =>
      rw [runItems_cons_eq env shouldUpload folderId continueOnError maxRetries
        total i item rest st hc]
      obtain ⟨hc1, _, _, _, hqne, _⟩ :=
        runItemsBody_spec env shouldUpload folderId maxRetries total i item st
      rw [List.map_cons, List.nodup_cons] at hnd
      have hfoundB : ∀ it ∈ rest,
          (runItemsBody env shouldUpload folderId maxRetries total
            i item st).1.queue.items.find? (fun x => x.id == it.id) = some it := by
        intro it hit
        have hne : (it.id == item.id) = false := by
          rw [beq_eq_false_iff_ne]
          intro hcEq
          exact hnd.1 (hcEq ▸ List.mem_map_of_mem (fun it => it.id) hit)
        rw [hqne it.id hne]
        exact hfound it (List.mem_cons_of_mem item hit)
      split
      · refine ⟨by omega, ?_⟩
        intro j it hj hle
        rw [hc1] at hle
        match j, hj with
        | 0, hj => omega
        | Nat.succ k, hj =>
          simp only [List.getElem?_cons_succ] at hj
          exact hfoundB it (mem_of_getElemSome hj)
      · obtain ⟨hmono, hframe⟩ := ih (i + 1) _ hfoundB hnd.2
        rw [hc1] at hmono
        refine ⟨by omega, ?_⟩
        intro j it hj hle
        match j, hj with
        | 0, hj => omega
        | Nat.succ k, hj =>
          simp only [List.getElem?_cons_succ] at hj
          exact hframe k it hj (by omega)

/-- With `continueOnError = true` and a cancellation raised before
boundary `k < i + rest.length`, the loop stops exactly at boundary `k`
with the cancelled flag and complete phase in its progress. -/
lemma runItems_cancel (env : BatchEnv) (shouldUpload : Bool) (folderId : Option String)
    (maxRetries total k : Nat) (hck : env.cancelAt = some k) :
    ∀ (rest : List QueueItem) (i : Nat) (st : RunState),
      st.progress.completed = i → i ≤ k → k < i + rest.length →
      (runItems env shouldUpload folderId true maxRetries total
        i rest st).progress.cancelled = true ∧
      (runItems env shouldUpload folderId true maxRetries total
        i rest st).progress.completed = k := by
  intro rest
  induction rest with
  | nil =>
    intro i st _ hik hk
    simp only [List.length_nil] at hk
    omega
  | cons item rest ih =>
    intro i st hcomp hik hk
    by_cases hki : k ≤ i
    · have hc : cancelFlag env i = true := by
        simp [cancelFlag, hck, Nat.ble_eq, hki]
      rw [runItems_cons_cancel env shouldUpload folderId true maxRetries
        total i item rest st hc]
      refine ⟨rfl, ?_⟩
      dsimp only [emit]
      omega
    · have hc : cancelFlag env i = false := by
        simp only [cancelFlag, hck]
        rw [Bool.eq_false_iff]
        intro hble
        exact hki (Nat.le_of_ble_eq_true hble)
      rw [runItems_cons_eq env shouldUpload folderId true maxRetries
        total i item rest st hc]
      obtain ⟨hc1, _, _, _, _, _⟩ :=
        runItemsBody_spec env shouldUpload folderId maxRetries total i item st
      have hik2 : i + 1 ≤ k := by omega
      have hk2 : k < (i + 1) + rest.length := by
        simp only [List.length_cons] at hk
        omega
      have hrec := ih (i + 1)
        (runItemsBody env shouldUpload folderId maxRetries total i item st).1
        (by rw [hc1, hcomp]) hik2 hk2
      rw [if_neg (fun hcond => by simpa using hcond.2)]
      exact hrec

/-- C6: whenever a `processQueue` run stops early — because the
cancellation flag was observed at an item boundary, or because an item
failed with `continueOnError = false` — every pending item of the FIFO
snapshot whose position was never reached (final completed count ≤ its
position) is still stored in the final queue as exactly its original
record, in particular still `pending` with no startedAt/result/error
change; and when the loop stopped at a cancellation boundary `k`, the
final progress has `cancelled = true`, `phase = complete` and
`completed = k`. -/
theorem processQueue_early_stop_frame (env : BatchEnv)
    (options : BatchProcessorOptions) (state : BPState) (q : PostQueue)
    (hnd : (q.items.map (fun it => it.id)).Nodup) :
    (∀ j it, (getPendingItems q)[j]? = some it →
      (processQueue env options state q).1.completed ≤ j →
      (processQueue env options state q).2.2.queue.items.find?
          (fun x => x.id == it.id) = some it ∧ it.status = .pending) ∧
    (∀ k, env.cancelAt = some k → options.continueOnError.getD true = true →
      k < (getPendingItems q).length →
      (processQueue env options state q).1.cancelled = true ∧
      (processQueue env options state q).1.phase = .complete ∧
      (processQueue env options state q).1.completed = k) := by
  have hpend : ∀ it ∈ getPendingItems q, it.status = .pending := by
    intro it hit
    have := (List.mem_filter.mp hit).2
    simpa using this
  by_cases htot : (getPendingItems q).length = 0
  · have hempty : getPendingItems q = [] := List.length_eq_zero.mp htot
    constructor
    · intro j it hj
      rw [hempty] at hj
      simp at hj
    · intro k _ _ hk
      omega
  · have hfound : ∀ it ∈ getPendingItems q,
        q.items.find? (fun x => x.id == it.id) = some it := by
      intro it hit
      exact find?_self_of_nodup q.items hnd it (List.mem_of_mem_filter hit)
    have hndp : ((getPendingItems q).map (fun it => it.id)).Nodup :=
      hnd.sublist (List.Sublist.map _ (List.filter_sublist q.items))
    constructor
    · intro j it hj hle
      refine ⟨?_, hpend it (mem_of_getElemSome hj)⟩
      obtain ⟨_, hframe⟩ := runItems_frame env options.uploadToDrive options.folderId
        (options.continueOnError.getD true) (options.maxRetries.getD 1)
        (getPendingItems q).length (getPendingItems q) 0
        { queue := q
          progress := { percentage := 0, completed := 0
                        total := (getPendingItems q).length, successCount := 0
                        failedCount := 0, currentItem := none, phase := .idle
                        cancelled := false }
          events := [], delays := [], authCalls := 0 }
        hfound hndp
      have hgoal := hframe j it hj
      simp only [processQueue, htot, if_false, emit] at hle ⊢
      exact hgoal (by simpa using hle)
    · intro k hck hco hk
      obtain ⟨hcanc, hcomp⟩ := runItems_cancel env options.uploadToDrive
        options.folderId (options.maxRetries.getD 1) (getPendingItems q).length k hck
        (getPendingItems q) 0
        { queue := q
          progress := { percentage := 0, completed := 0
                        total := (getPendingItems q).length, successCount := 0
                        failedCount := 0, currentItem := none, phase := .idle
                        cancelled := false }
          events := [], delays := [], authCalls := 0 }
        rfl (Nat.zero_le k) (by omega)
      simp only [processQueue, htot, if_false, emit, hco]
      exact ⟨hcanc, trivial, hcomp⟩

def witnessPost2 : CapturedPost :=
  { id := "post-2", sourceUrl := "https://example.com/p/2", title := "t2"
    description := "d2", authorName := "a", authorId := "a1"
    captureTimestamp := 5, images := [], isVideo := false }

def witnessItem2 : QueueItem :=
  createQueueItem "item-2B" 8 witnessPost2

def twoItemQueue : PostQueue :=
  recalculateTotals 8 { (createEmptyQueue 7) with items := [witnessItem, witnessItem2] }

def envCancelAt1 : BatchEnv :=
  { envPlain with cancelAt := some 1 }

theorem processQueue_early_stop_frame_witness :
    ((processQueue envCancelAt1 { uploadToDrive := false, continueOnError := some true }
        ⟨false, false⟩ twoItemQueue).2.2.queue.items.find?
        (fun x => x.id == witnessItem2.id) = some witnessItem2 ∧
      witnessItem2.status = .pending) ∧
    ((processQueue envCancelAt1 { uploadToDrive := false, continueOnError := some true }
        ⟨false, false⟩ twoItemQueue).1.cancelled = true ∧
      (processQueue envCancelAt1 { uploadToDrive := false, continueOnError := some true }
        ⟨false, false⟩ twoItemQueue).1.phase = .complete ∧
      (processQueue envCancelAt1 { uploadToDrive := false, continueOnError := some true }
        ⟨false, false⟩ twoItemQueue).1.completed = 1) :=
  ⟨(processQueue_early_stop_frame envCancelAt1
      { uploadToDrive := false, continueOnError := some true } ⟨false, false⟩
      twoItemQueue (by decide)).1 1 witnessItem2 (by decide) (by decide),
   (processQueue_early_stop_frame envCancelAt1
      { uploadToDrive := false, continueOnError := some true } ⟨false, false⟩
      twoItemQueue (by decide)).2 1 rfl rfl (by decide)⟩

/-- C8 counterexample: on an empty queue, the snapshot emitted by
`processQueue` has `total = 0` but `percentage = 100`, not the
percentage 0 that the claim defines for a zero total. -/
theorem processQueue_zero_total_percentage_counterexample :
    (processQueue envPlain { uploadToDrive := false } ⟨false, false⟩
        (createEmptyQueue 0)).2.2.events.map (fun p => (p.total, p.percentage)) =
      [(0, 100)] := by
  decide

/-- C8 amended: every progress snapshot emitted by `processQueue`
(including the returned one) satisfies
`percentage = round(completed / total × 100)` whenever its total is
positive; when the total is zero the emitted snapshot instead carries
`percentage = 100` (the empty-queue branch).  `calculateQueueProgress`
satisfies the formula too, with percentage 0 when the queue total is
zero. -/
theorem processQueue_progress_formula (env : BatchEnv)
    (options : BatchProcessorOptions) (state : BPState) (q q2 : PostQueue) :
    (∀ p ∈ (processQueue env options state q).2.2.events, pctOk p) ∧
    pctOk (processQueue env options state q).1 ∧
    (calculateQueueProgress q2).percentage =
      (if q2.totalItems = 0 then 0
       else roundPercentage (q2.completedItems + q2.failedItems) q2.totalItems) := by
  refine ⟨?_, ?_, ?_⟩
  all_goals try
    first
      | (by_cases h2 : q2.totalItems = 0 <;> simp [calculateQueueProgress, h2])
      | skip
  · by_cases htot : (getPendingItems q).length = 0
    · intro p hp
      simp only [processQueue, htot, if_true, emit] at hp
      simp only [List.nil_append, List.mem_singleton] at hp
      subst hp
      exact ⟨fun h => by simp [htot] at h, fun _ => rfl⟩
    · have hloop := runItems_pctOk env options.uploadToDrive options.folderId
        (options.continueOnError.getD true) (options.maxRetries.getD 1)
        (getPendingItems q).length (by omega) (getPendingItems q) 0
        { queue := q
          progress := { percentage := 0, completed := 0
                        total := (getPendingItems q).length, successCount := 0
                        failedCount := 0, currentItem := none, phase := .idle
                        cancelled := false }
          events := [], delays := [], authCalls := 0 }
        rfl
        ⟨fun _ => (roundPercentage_zero _ (by omega)).symm, fun h => absurd h htot⟩
        (by intro p hp; simp at hp)
      intro p hp
      simp only [processQueue, htot, if_false, emit, List.mem_append,
        List.mem_singleton] at hp
      rcases hp with hp | rfl
      · exact hloop.2.2 p hp
      · exact pctOk_of_core _ _ rfl rfl rfl hloop.1
  · by_cases htot : (getPendingItems q).length = 0
    · simp only [processQueue, htot, if_true, emit]
      exact ⟨fun h => by simp [htot] at h, fun _ => rfl⟩
    · have hloop := runItems_pctOk env options.uploadToDrive options.folderId
        (options.continueOnError.getD true) (options.maxRetries.getD 1)
        (getPendingItems q).length (by omega) (getPendingItems q) 0
        { queue := q
          progress := { percentage := 0, completed := 0
                        total := (getPendingItems q).length, successCount := 0
                        failedCount := 0, currentItem := none, phase := .idle
                        cancelled := false }
          events := [], delays := [], authCalls := 0 }
        rfl
        ⟨fun _ => (roundPercentage_zero _ (by omega)).symm, fun h => absurd h htot⟩
        (by intro p hp; simp at hp)
      simp only [processQueue, htot, if_false, emit]
      exact pctOk_of_core _ _ rfl rfl rfl hloop.1

theorem processQueue_progress_formula_witness :
    0 < (processQueue envPlain { uploadToDrive := false } ⟨false, false⟩
        witnessQueue).1.total ∧
    (processQueue envPlain { uploadToDrive := false } ⟨false, false⟩
        witnessQueue).1.percentage =
      roundPercentage
        (processQueue envPlain { uploadToDrive := false } ⟨false, false⟩
          witnessQueue).1.completed
        (processQueue envPlain { uploadToDrive := false } ⟨false, false⟩
          witnessQueue).1.total ∧
    (calculateQueueProgress doneQueue).percentage =
      (if doneQueue.totalItems = 0 then 0
       else roundPercentage (doneQueue.completedItems + doneQueue.failedItems)
         doneQueue.totalItems) :=
  ⟨by decide,
   (processQueue_progress_formula envPlain { uploadToDrive := false } ⟨false, false⟩
      witnessQueue doneQueue).2.1.1 (by decide),
   (processQueue_progress_formula envPlain { uploadToDrive := false } ⟨false, false⟩
      witnessQueue doneQueue).2.2⟩

/-! ## C3: auth-provider failures inside the per-item retry loop -/

/-- Environment in which PDF generation always succeeds but the auth
provider never yields a token. -/
def envNoToken : BatchEnv :=
  { genPdf := fun _ _ => .ok plainPdf
    token := fun _ _ => none
    upload := fun _ _ => { success := true }
    cancelAt := none
    now := 10 }

/-- C3 counterexample: with `maxRetries = 2` and the auth provider
failing, the per-item loop queries the provider twice (two attempts)
with a 1000 ms backoff delay between them — the "Not authenticated"
failure is retried like any other error, not failed after exactly one
attempt. -/
theorem auth_failure_retried_counterexample :
    (processQueue envNoToken { uploadToDrive := true, maxRetries := some 2 }
        ⟨false, false⟩ witnessQueue).2.2.authCalls = 2 ∧
    (processQueue envNoToken { uploadToDrive := true, maxRetries := some 2 }
        ⟨false, false⟩ witnessQueue).2.2.delays = [1000] ∧
    (processQueue envNoToken { uploadToDrive := true, maxRetries := some 2 }
        ⟨false, false⟩ witnessQueue).2.2.queue.items.map
        (fun it => (it.status, it.error)) =
      [(QueueItemStatus.failed, some "Not authenticated")] := by
  decide

/-- The backoff delays the retry loop records when every attempt fails:
`1000 * (attempt + 1)` after every attempt except the last. -/
def authDelays (maxRetries : Nat) : Nat → Nat → List Nat
  | _, 0 => []
  | attempt, rem + 1 =>
    (if attempt < maxRetries - 1 then [1000 * (attempt + 1)] else []) ++
      authDelays maxRetries (attempt + 1) rem

lemma processItem_auth_fail (env : BatchEnv) (folderId : Option String)
    (i attempt : Nat) (item : QueueItem) (st : RunState)
    (hg : ∃ p, env.genPdf i attempt = .ok p) (ht : env.token i attempt = none) :
    (processItem env true folderId i attempt item st).2 = some "Not authenticated" ∧
    (processItem env true folderId i attempt item st).1.authCalls = st.authCalls + 1 ∧
    (processItem env true folderId i attempt item st).1.delays = st.delays := by
  obtain ⟨p, hp⟩ := hg
  simp [processItem, hp, ht, emit]

lemma attemptLoop_auth_fail (env : BatchEnv) (folderId : Option String)
    (maxRetries i : Nat) (item : QueueItem)
    (hg : ∀ a, ∃ p, env.genPdf i a = .ok p) (ht : ∀ a, env.token i a = none) :
    ∀ (rem attempt : Nat) (lastErr : Option String) (st : RunState),
      (attemptLoop env true folderId maxRetries i item attempt rem lastErr st).2.1 =
        false ∧
      (attemptLoop env true folderId maxRetries i item attempt rem lastErr st).2.2 =
        (if rem = 0 then lastErr else some "Not authenticated") ∧
      (attemptLoop env true folderId maxRetries i item
          attempt rem lastErr st).1.authCalls = st.authCalls + rem ∧
      (attemptLoop env true folderId maxRetries i item
          attempt rem lastErr st).1.delays =
        st.delays ++ authDelays maxRetries attempt rem := by
  intro rem
  induction rem with
  | zero =>
    intro attempt lastErr st
    simp [attemptLoop, authDelays]
  | succ rem ih =>
    intro attempt lastErr st
    rcases hpi : processItem env true folderId i attempt item st with ⟨st2, res⟩
    obtain ⟨hres, hauth, hdel⟩ :=
      processItem_auth_fail env folderId i attempt item st (hg attempt) (ht attempt)
    rw [hpi] at hres hauth hdel
    simp only at hres hauth hdel
    subst hres
    have hloop : attemptLoop env true folderId maxRetries i item
        attempt (rem + 1) lastErr st =
        attemptLoop env true folderId maxRetries i item (attempt + 1) rem
          (some "Not authenticated")
          (if attempt < maxRetries - 1 then
            { st2 with delays := st2.delays ++ [1000 * (attempt + 1)] }
          else st2) := by
      simp only [attemptLoop, hpi]
    obtain ⟨ih1, ih2, ih3, ih4⟩ := ih (attempt + 1) (some "Not authenticated")
      (if attempt < maxRetries - 1 then
        { st2 with delays := st2.delays ++ [1000 * (attempt + 1)] }
      else st2)
    rw [hloop]
    refine ⟨ih1, ?_, ?_, ?_⟩
    · rw [ih2]
      cases rem <;> simp
    · rw [ih3]
      split <;> simp [hauth] <;> omega
    · rw [ih4, hdel]
      simp only [authDelays]
      split <;> simp [hdel]

lemma runItems_single (env : BatchEnv) (shouldUpload : Bool) (folderId : Option String)
    (continueOnError : Bool) (maxRetries total i : Nat) (item : QueueItem)
    (st : RunState) (hc : cancelFlag env i = false) :
    runItems env shouldUpload folderId continueOnError maxRetries total i [item] st =
      (runItemsBody env shouldUpload folderId maxRetries total i item st).1 := by
  rw [runItems_cons_eq env shouldUpload folderId continueOnError maxRetries total
    i item [] st hc]
  split <;> rfl

lemma runItemsBody_auth_fail (env : BatchEnv) (folderId : Option String)
    (maxRetries total i : Nat) (item : QueueItem) (st : RunState)
    (hg : ∀ a, ∃ p, env.genPdf i a = .ok p) (ht : ∀ a, env.token i a = none) :
    (runItemsBody env true folderId maxRetries total i item st).2 = false ∧
    (runItemsBody env true folderId maxRetries total i item st).1.authCalls =
      st.authCalls + maxRetries ∧
    (runItemsBody env true folderId maxRetries total i item st).1.delays =
      st.delays ++ authDelays maxRetries 0 maxRetries ∧
    (runItemsBody env true folderId maxRetries total i item st).1.progress.failedCount =
      st.progress.failedCount + 1 ∧
    (runItemsBody env true folderId maxRetries total i item st).1.progress.successCount =
      st.progress.successCount := by
  obtain ⟨h1, _, h3, h4⟩ :=
    attemptLoop_auth_fail env folderId maxRetries i item hg ht maxRetries 0 none
      { st with progress := { st.progress with currentItem := some item.post.title } }
  obtain ⟨⟨ph, hph⟩, _, _⟩ :=
    attemptLoop_state env true folderId maxRetries i item maxRetries 0 none
      { st with progress := { st.progress with currentItem := some item.post.title } }
  dsimp only at h1 h3 h4 hph
  simp only [runItemsBody, emit]
  exact ⟨by simp [h1], by simp [h1, h3], by simp [h1, h4], by simp [h1, hph],
    by simp [h1, hph]⟩

lemma authDelays_eq_rangeMap :
    ∀ (rem attempt maxRetries : Nat), attempt + rem = maxRetries →
      authDelays maxRetries attempt rem =
        (List.range' attempt (maxRetries - 1 - attempt)).map
          (fun a => 1000 * (a + 1)) := by
  intro rem
  induction rem with
  | zero =>
    intro attempt maxRetries h
    have : maxRetries - 1 - attempt = 0 := by omega
    simp [authDelays, this]
  | succ rem ih =>
    intro attempt maxRetries h
    by_cases hlt : attempt < maxRetries - 1
    · have hlen : maxRetries - 1 - attempt = (maxRetries - 1 - (attempt + 1)) + 1 := by
        omega
      rw [hlen]
      simp only [authDelays, hlt, if_true, List.range']
      simp only [List.map_cons, List.singleton_append, List.cons.injEq]
      exact ⟨by trivial, ih (attempt + 1) maxRetries (by omega)⟩
    · have hrem : rem = 0 := by omega
      have hlen : maxRetries - 1 - attempt = 0 := by omega
      subst hrem
      simp [authDelays, hlt, hlen]

/-- C3 amended: inside the per-item retry loop an auth-provider failure
("Not authenticated") is retried exactly like any other per-item error:
with `maxRetries = m` the loop queries the provider `m` times, recording
backoff delays `1000 * (attempt + 1)` ms between consecutive attempts,
before marking the single pending item failed.  Only for the default
`maxRetries = 1` does the item fail after exactly one attempt with no
backoff. -/
theorem auth_failure_retry_behaviour (env : BatchEnv)
    (options : BatchProcessorOptions) (state : BPState) (q : PostQueue)
    (item : QueueItem) (m : Nat)
    (hg : ∀ a, ∃ p, env.genPdf 0 a = .ok p)
    (ht : ∀ a, env.token 0 a = none)
    (hcan : env.cancelAt = none)
    (hq : getPendingItems q = [item])
    (hup : options.uploadToDrive = true)
    (hm : options.maxRetries = some m) :
    (processQueue env options state q).2.2.authCalls = m ∧
    (processQueue env options state q).2.2.delays =
      (List.range (m - 1)).map (fun a => 1000 * (a + 1)) ∧
    (processQueue env options state q).1.failedCount = 1 ∧
    (processQueue env options state q).1.successCount = 0 := by
  have hc : cancelFlag env 0 = false := by simp [cancelFlag, hcan]
  obtain ⟨hB2, hBauth, hBdel, hBfail, hBsucc⟩ :=
    runItemsBody_auth_fail env options.folderId m 1 0 item
      { queue := q
        progress := { percentage := 0, completed := 0
                      total := 1, successCount := 0
                      failedCount := 0, currentItem := none, phase := .idle
                      cancelled := false }
        events := [], delays := [], authCalls := 0 }
      hg ht
  have htot : ¬ (getPendingItems q).length = 0 := by
    rw [hq]
    simp
  have hrange : authDelays m 0 m =
      (List.range (m - 1)).map (fun a => 1000 * (a + 1)) := by
    rw [authDelays_eq_rangeMap m 0 m (by omega), List.range_eq_range']
    simp
  simp only [processQueue, htot, if_false, emit, hq, List.length_singleton, hup, hm,
    Option.getD_some]
  rw [runItems_single env true options.folderId (options.continueOnError.getD true)
    m 1 0 item _ hc]
  refine ⟨?_, ?_, ?_, ?_⟩
  · simpa using hBauth
  · rw [← hrange]
    simpa using hBdel
  · simpa using hBfail
  · simpa using hBsucc

theorem auth_failure_retry_behaviour_witness :
    (processQueue envNoToken { uploadToDrive := true, maxRetries := some 3 }
        ⟨false, false⟩ witnessQueue).2.2.authCalls = 3 ∧
    (processQueue envNoToken { uploadToDrive := true, maxRetries := some 3 }
        ⟨false, false⟩ witnessQueue).2.2.delays =
      (List.range (3 - 1)).map (fun a => 1000 * (a + 1)) ∧
    (processQueue envNoToken { uploadToDrive := true, maxRetries := some 3 }
        ⟨false, false⟩ witnessQueue).1.failedCount = 1 ∧
    (processQueue envNoToken { uploadToDrive := true, maxRetries := some 3 }
        ⟨false, false⟩ witnessQueue).1.successCount = 0 :=
  auth_failure_retry_behaviour envNoToken
    { uploadToDrive := true, maxRetries := some 3 } ⟨false, false⟩ witnessQueue
    witnessItem 3 (fun _ => ⟨plainPdf, rfl⟩) (fun _ => rfl) rfl (by decide) rfl rfl

/-! ## Drive upload retry loop (uploadToDrive in src/services/pdf-generator.ts) -/

def seqStartsWith : List Char → List Char → Bool
  | [], _ => true
  | _ :: _, [] => false
  | a :: as, b :: bs => a == b && seqStartsWith as bs

def strContainsSeq (sub : List Char) : List Char → Bool
  | [] => sub.isEmpty
  | c :: cs => seqStartsWith sub (c :: cs) || strContainsSeq sub cs

/-- `errorMessage.includes('401') || errorMessage.includes('403')`. -/
def isAuthError (msg : String) : Bool :=
  strContainsSeq "401".data msg.data || strContainsSeq "403".data msg.data

/-- `UploadOptions` of the drive uploader. -/
structure UploadOptions where
  folderId : Option String := none
  maxRetries : Option Nat := none
  accessToken : String

/-- The `for (attempt = 1; attempt <= maxRetries; attempt++)` loop of
`uploadToDrive`, structured over the remaining iteration count.
`perform attempt` is the oracle for `performUpload` (`.error msg` models
a thrown error, whose message is `"status: reason"` for HTTP failures).
Besides the `UploadResult` the model returns the trace of backoff
`delay` calls (ms) and the number of `performUpload` invocations. -/
def uploadLoop (perform : Nat → Except String UploadResult) (maxRetries : Nat) :
    Nat → Nat → List Nat → Nat → UploadResult × List Nat × Nat
  | _, 0, delays, calls =>
    ({ success := false, error := some "Max retries exceeded" }, delays, calls)
  | attempt, rem + 1, delays, calls =>
    match perform attempt with
    | .ok result => (result, delays, calls + 1)
    | .error errorMessage =>
      if isAuthError errorMessage then
        ({ success := false, error := some errorMessage }, delays, calls + 1)
      else if attempt == maxRetries then
        ({ success := false
           error := some ("Upload failed after " ++ toString maxRetries ++
             " attempts: " ++ errorMessage) }, delays, calls + 1)
      else
        uploadLoop perform maxRetries (attempt + 1) rem
          (delays ++ [Nat.pow 2 attempt * 1000]) (calls + 1)

/-- `uploadToDrive`: up to `maxRetries` (default 3) attempts starting at
attempt 1. -/
def uploadToDrive (perform : Nat → Except String UploadResult)
    (options : UploadOptions) : UploadResult × List Nat × Nat :=
  let maxRetries := options.maxRetries.getD 3
  uploadLoop perform maxRetries 1 maxRetries [] 0

lemma uploadLoop_nonauth (perform : Nat → Except String UploadResult)
    (maxRetries : Nat) (msgs : Nat → String)
    (h : ∀ k, 1 ≤ k → k ≤ maxRetries →
      perform k = .error (msgs k) ∧ isAuthError (msgs k) = false) :
    ∀ (rem attempt : Nat) (delays : List Nat) (calls : Nat),
      1 ≤ rem → attempt + rem = maxRetries + 1 → 1 ≤ attempt →
      uploadLoop perform maxRetries attempt rem delays calls =
        ({ success := false
           error := some ("Upload failed after " ++ toString maxRetries ++
             " attempts: " ++ msgs maxRetries) },
         delays ++ (List.range' attempt (maxRetries - attempt)).map
           (fun a => Nat.pow 2 a * 1000),
         calls + rem) := by
  intro rem
  induction rem with
  | zero =>
    intro attempt delays calls h1
    omega
  | succ rem ih =>
    intro attempt delays calls _ harith hatt
    obtain ⟨hperr, hpna⟩ := h attempt hatt (by omega)
    by_cases hlast : attempt = maxRetries
    · subst hlast
      have hrem : rem = 0 := by omega
      subst hrem
      simp [uploadLoop, hperr, hpna]
    · have hne : (attempt == maxRetries) = false := by
        rw [beq_eq_false_iff_ne]
        exact hlast
      have hstep := ih (attempt + 1) (delays ++ [Nat.pow 2 attempt * 1000])
        (calls + 1) (by omega) (by omega) (by omega)
      have hlen : maxRetries - attempt = (maxRetries - (attempt + 1)) + 1 := by
        omega
      simp only [uploadLoop, hperr, hpna, Bool.false_eq_true, if_false, hne]
      rw [hstep, hlen, List.range']
      simp only [List.map_cons, List.append_assoc, List.singleton_append]
      have hc : calls + 1 + rem = calls + (rem + 1) := by omega
      rw [hc]

/-- C5: `uploadToDrive` retries a failed upload up to the configured
maximum number of attempts (3 when none is configured), sleeping
`2^attempt` seconds between consecutive attempts; an authorization
failure (a message carrying the HTTP 401/403 status) on the first
attempt returns that failure immediately after exactly one attempt with
no delay; and when all attempts fail with non-auth errors the returned
failure carries the last underlying error message. -/
theorem uploadToDrive_retry_policy (perform : Nat → Except String UploadResult)
    (options : UploadOptions) (msg : String) (msgs : Nat → String) :
    (options.maxRetries = none →
      uploadToDrive perform options = uploadLoop perform 3 1 3 [] 0) ∧
    (1 ≤ options.maxRetries.getD 3 → perform 1 = .error msg → isAuthError msg = true →
      uploadToDrive perform options =
        ({ success := false, error := some msg }, [], 1)) ∧
    ((∀ k, 1 ≤ k → k ≤ options.maxRetries.getD 3 →
        perform k = .error (msgs k) ∧ isAuthError (msgs k) = false) →
      1 ≤ options.maxRetries.getD 3 →
      uploadToDrive perform options =
        ({ success := false
           error := some ("Upload failed after " ++
             toString (options.maxRetries.getD 3) ++ " attempts: " ++
             msgs (options.maxRetries.getD 3)) },
         (List.range' 1 (options.maxRetries.getD 3 - 1)).map
           (fun a => Nat.pow 2 a * 1000),
         options.maxRetries.getD 3)) := by
  refine ⟨?_, ?_, ?_⟩
  · intro hnone
    simp [uploadToDrive, hnone]
  · intro hM hp ha
    rcases hM1 : options.maxRetries.getD 3 with _ | M
    · omega
    · simp [uploadToDrive, hM1, uploadLoop, hp, ha]
  · intro hall hM
    have := uploadLoop_nonauth perform (options.maxRetries.getD 3) msgs hall
      (options.maxRetries.getD 3) 1 [] 0 (by omega) (by omega) (by omega)
    simp only [uploadToDrive]
    rw [this]
    simp

def performAuthFail : Nat → Except String UploadResult :=
  fun _ => .error "401: Unauthorized"

def performNetFail : Nat → Except String UploadResult :=
  fun k => .error ("network error " ++ toString k)

theorem uploadToDrive_retry_policy_witness :
    uploadToDrive performAuthFail { accessToken := "tok" } =
      ({ success := false, error := some "401: Unauthorized" }, [], 1) ∧
    uploadToDrive performNetFail { accessToken := "tok" } =
      ({ success := false
         error := some "Upload failed after 3 attempts: network error 3" },
       [2000, 4000], 3) :=
  ⟨(uploadToDrive_retry_policy performAuthFail { accessToken := "tok" }
      "401: Unauthorized" (fun k => "network error " ++ toString k)).2.1
      (by decide) rfl (by decide),
   by
    have h := (uploadToDrive_retry_policy performNetFail { accessToken := "tok" }
      "401: Unauthorized" (fun k => "network error " ++ toString k)).2.2
      (by
        intro k h1 h2
        refine ⟨rfl, ?_⟩
        have h3 : k ≤ 3 := by simpa using h2
        interval_cases k <;> decide)
      (by decide)
    rw [h]
    decide⟩

/-! ## Filename derivation (generateFilename in src/services/pdf-generator.ts)

Strings are modelled at the character-sequence level (`List Char`);
`Char.toLower` models `toLowerCase` for the `.pdf` suffix test (the only
code points whose JS lowercase form is one of `.`, `p`, `d`, `f` are
those characters and `P`, `D`, `F`, on which the two functions agree). -/

/-- The characters removed by `replace(/[<>:"/\\|?*]/g, '')`. -/
def invalidFilenameChar (c : Char) : Bool :=
  ['<', '>', ':', '"', '/', '\\', '|', '?', '*'].contains c

/-- The JS regex `\s` / `trim()` whitespace class. -/
def isJsWhitespace (c : Char) : Bool :=
  c == ' ' || c == '\t' || c == '\n' || c == '\r' ||
  c.val == 0x0b || c.val == 0x0c || c.val == 0xa0 ||
  c.val == 0x1680 || (0x2000 ≤ c.val && c.val ≤ 0x200a) ||
  c.val == 0x2028 || c.val == 0x2029 || c.val == 0x202f ||
  c.val == 0x205f || c.val == 0x3000 || c.val == 0xfeff

/-- `replace(/\s+/g, ' ')`: every maximal whitespace run becomes one
space; `prevWs` records whether the previous character was whitespace. -/
def collapseWs (prevWs : Bool) : List Char → List Char
  | [] => []
  | c :: cs =>
    if isJsWhitespace c then
      if prevWs then collapseWs true cs
      else ' ' :: collapseWs true cs
    else c :: collapseWs false cs

/-- `trim()`. -/
def trimChars (l : List Char) : List Char :=
  ((l.dropWhile isJsWhitespace).reverse.dropWhile isJsWhitespace).reverse

/-- `seqEndsWith l suf` : does `l` end with `suf`? -/
def seqEndsWith (l suf : List Char) : Bool :=
  seqStartsWith suf.reverse l.reverse

/-- The `sanitized` local of `generateFilename`. -/
def sanitizedTitle (title : List Char) : List Char :=
  trimChars (collapseWs false (title.filter (fun c => !invalidFilenameChar c)))

/-- The `finalName` local of `generateFilename` (truncation to 200
characters plus the default for an empty result). -/
def baseFilename (title : List Char) : List Char :=
  let truncated := (sanitizedTitle title).take 200
  if truncated.isEmpty then "RedNote_Post".data else truncated

/-- `generateFilename`: append `.pdf` unless the name already ends with
it in any letter case. -/
def generateFilename (title : List Char) : List Char :=
  if seqEndsWith ((baseFilename title).map Char.toLower) ".pdf".data then
    baseFilename title
  else
    baseFilename title ++ ".pdf".data

/-! ### C9 support lemmas -/

lemma mem_collapseWs : ∀ (l : List Char) (b : Bool) (c : Char),
    c ∈ collapseWs b l → c = ' ' ∨ c ∈ l := by
  intro l
  induction l with
  | nil => intro b c h; simp [collapseWs] at h
  | cons a l ih =>
    intro b c h
    by_cases ha : isJsWhitespace a = true
    · cases b with
      | true =>
        simp only [collapseWs, ha, if_true] at h
        rcases ih true c h with h1 | h1
        · exact Or.inl h1
        · exact Or.inr (List.mem_cons_of_mem a h1)
      | false =>
        simp only [collapseWs, ha, if_true, Bool.false_eq_true, if_false,
          List.mem_cons] at h
        rcases h with rfl | h1
        · exact Or.inl rfl
        · rcases ih true c h1 with h2 | h2
          · exact Or.inl h2
          · exact Or.inr (List.mem_cons_of_mem a h2)
    · rw [Bool.not_eq_true] at ha
      simp only [collapseWs, ha, Bool.false_eq_true, if_false, List.mem_cons] at h
      rcases h with rfl | h1
      · exact Or.inr (List.mem_cons_self c l)
      · rcases ih false c h1 with h2 | h2
        · exact Or.inl h2
        · exact Or.inr (List.mem_cons_of_mem a h2)

lemma mem_trimChars {c : Char} {l : List Char} (h : c ∈ trimChars l) : c ∈ l := by
  simp only [trimChars, List.mem_reverse] at h
  have h2 := (List.dropWhile_suffix isJsWhitespace).subset h
  rw [List.mem_reverse] at h2
  exact (List.dropWhile_suffix isJsWhitespace).subset h2

lemma head?_dropWhile (p : Char → Bool) :
    ∀ (l : List Char) (c : Char), (l.dropWhile p).head? = some c → p c = false := by
  intro l
  induction l with
  | nil => intro c h; simp at h
  | cons a l ih =>
    intro c h
    by_cases ha : p a = true
    · rw [List.dropWhile_cons_of_pos ha] at h
      exact ih c h
    · rw [Bool.not_eq_true] at ha
      rw [List.dropWhile_cons_of_neg (by simp [ha])] at h
      simp only [List.head?_cons, Option.some.injEq] at h
      exact h ▸ ha

/-- Adjacent characters are never both whitespace. -/
def NoWsRun (l : List Char) : Prop :=
  l.Chain' (fun a b => isJsWhitespace a = false ∨ isJsWhitespace b = false)

lemma collapseWs_head_nonWs : ∀ (l : List Char) (c : Char),
    (collapseWs true l).head? = some c → isJsWhitespace c = false := by
  intro l
  induction l with
  | nil => intro c h; simp [collapseWs] at h
  | cons a l ih =>
    intro c h
    by_cases ha : isJsWhitespace a = true
    · simp only [collapseWs, ha, if_true] at h
      exact ih c h
    · rw [Bool.not_eq_true] at ha
      simp only [collapseWs, ha, Bool.false_eq_true, if_false, List.head?_cons,
        Option.some.injEq] at h
      exact h ▸ ha

lemma noWsRun_collapseWs : ∀ (l : List Char) (b : Bool), NoWsRun (collapseWs b l) := by
  intro l
  induction l with
  | nil => intro b; simp [collapseWs, NoWsRun]
  | cons a l ih =>
    intro b
    by_cases ha : isJsWhitespace a = true
    · cases b with
      | true => simpa [collapseWs, ha] using ih true
      | false =>
        simp only [collapseWs, ha, if_true, Bool.false_eq_true, if_false]
        rw [NoWsRun, List.chain'_cons']
        refine ⟨?_, ih true⟩
        intro y hy
        exact Or.inr (collapseWs_head_nonWs l y hy)
    · rw [Bool.not_eq_true] at ha
      simp only [collapseWs, ha, Bool.false_eq_true, if_false]
      rw [NoWsRun, List.chain'_cons']
      exact ⟨fun y _ => Or.inl ha, ih false⟩

lemma noWsRun_trimChars {l : List Char} (h : NoWsRun l) : NoWsRun (trimChars l) := by
  rw [NoWsRun, trimChars, List.chain'_reverse]
  refine List.Chain'.suffix ?_ (List.dropWhile_suffix isJsWhitespace)
  rw [List.chain'_reverse]
  exact List.Chain'.suffix h (List.dropWhile_suffix isJsWhitespace)

lemma seqStartsWith_append_self : ∀ s t : List Char, seqStartsWith s (s ++ t) = true := by
  intro s
  induction s with
  | nil => intro t; rfl
  | cons a s ih =>
    intro t
    simp only [List.cons_append, seqStartsWith, beq_self_eq_true, Bool.true_and]
    exact ih t

lemma seqStartsWith_append_left : ∀ (p u v : List Char),
    seqStartsWith (p ++ u) (p ++ v) = seqStartsWith u v := by
  intro p
  induction p with
  | nil => intro u v; rfl
  | cons a p ih =>
    intro u v
    simp only [List.cons_append, seqStartsWith, beq_self_eq_true, Bool.true_and]
    exact ih u v

lemma seqEndsWith_append_self (l s : List Char) : seqEndsWith (l ++ s) s = true := by
  rw [seqEndsWith, List.reverse_append]
  exact seqStartsWith_append_self s.reverse l.reverse

lemma seqEndsWith_append_right (a b s : List Char) :
    seqEndsWith (a ++ s) (b ++ s) = seqEndsWith a b := by
  rw [seqEndsWith, seqEndsWith, List.reverse_append, List.reverse_append]
  exact seqStartsWith_append_left s.reverse b.reverse a.reverse

lemma head?_of_prefix {l₁ l₂ : List Char} {c : Char} (h : l₁ <+: l₂)
    (hc : l₁.head? = some c) : l₂.head? = some c := by
  obtain ⟨t, rfl⟩ := h
  cases l₁ with
  | nil => simp at hc
  | cons a l => simpa using hc

lemma trimChars_prefix_dropWhile (l : List Char) :
    trimChars l <+: l.dropWhile isJsWhitespace := by
  rw [trimChars]
  have h := List.dropWhile_suffix (l := (l.dropWhile isJsWhitespace).reverse)
    isJsWhitespace
  have h2 := List.reverse_prefix.mpr h
  rwa [List.reverse_reverse] at h2

/-- A list without any whitespace character trivially has no whitespace
run. -/
lemma noWsRun_of_all_nonWs : ∀ l : List Char,
    (∀ c ∈ l, isJsWhitespace c = false) → NoWsRun l := by
  intro l
  induction l with
  | nil => intro _; simp [NoWsRun]
  | cons a l ih =>
    intro h
    rw [NoWsRun, List.chain'_cons']
    refine ⟨fun y _ => Or.inl (h a (List.mem_cons_self a l)), ?_⟩
    exact ih fun c hc => h c (List.mem_cons_of_mem a hc)

/-! ### C9 theorems -/

/-- C9 counterexample: for the title `"x.pdf.pdf"` the sanitized name
already ends with `.pdf`, so it is returned verbatim — the result ends
with two `.pdf` suffixes, not exactly one. -/
theorem generateFilename_double_suffix_counterexample :
    generateFilename "x.pdf.pdf".data = "x.pdf.pdf".data ∧
    seqEndsWith (generateFilename "x.pdf.pdf".data) ".pdf.pdf".data = true := by
  decide

/-- C9 amended: for every title, `generateFilename` returns a name with
none of the characters `< > : " / \ | ? *`, whose whitespace was
collapsed (no two adjacent whitespace characters) and trimmed at the
front, of length at most 200 before the at most 4 appended extension
characters, equal to `"RedNote_Post.pdf"` when the sanitized title is
empty, and ending with `.pdf` case-insensitively; `.pdf` is appended
exactly when the sanitized name does not already end with it in any
letter case, so the function itself never doubles the suffix — but a
title that itself ends in a repeated `.pdf.pdf` keeps that repetition
(the returned name then ends in more than one `.pdf`). -/
theorem generateFilename_sanitization (title : List Char) :
    (∀ c ∈ generateFilename title, invalidFilenameChar c = false) ∧
    NoWsRun (generateFilename title) ∧
    (∀ c, (generateFilename title).head? = some c → isJsWhitespace c = false) ∧
    (generateFilename title).length ≤ 204 ∧
    (sanitizedTitle title = [] → generateFilename title = "RedNote_Post.pdf".data) ∧
    seqEndsWith ((generateFilename title).map Char.toLower) ".pdf".data = true ∧
    (seqEndsWith ((baseFilename title).map Char.toLower) ".pdf".data = false →
      generateFilename title = baseFilename title ++ ".pdf".data ∧
      seqEndsWith ((generateFilename title).map Char.toLower) ".pdf.pdf".data =
        false) := by
  have hdefault_mem : ∀ c ∈ "RedNote_Post".data, invalidFilenameChar c = false := by
    decide
  have hpdf_mem : ∀ c ∈ ".pdf".data, invalidFilenameChar c = false := by decide
  have hbase_mem : ∀ c ∈ baseFilename title, invalidFilenameChar c = false := by
    intro c hc
    rw [baseFilename] at hc
    split at hc
    · exact hdefault_mem c hc
    · have hs := List.take_subset 200 (sanitizedTitle title) hc
      have hs2 := mem_trimChars (l := collapseWs false
        (title.filter (fun c => !invalidFilenameChar c))) hs
      rcases mem_collapseWs _ false c hs2 with rfl | hs3
      · decide
      · have := (List.mem_filter.mp hs3).2
        simpa using this
  have hbase_chain : NoWsRun (baseFilename title) := by
    rw [baseFilename]
    split
    · exact noWsRun_of_all_nonWs _ (by decide)
    · exact List.Chain'.prefix
        (noWsRun_trimChars (noWsRun_collapseWs _ false))
        (List.take_prefix 200 (sanitizedTitle title))
  have hbase_head : ∀ c, (baseFilename title).head? = some c →
      isJsWhitespace c = false := by
    intro c hc
    rw [baseFilename] at hc
    split at hc
    · simp only [List.head?_cons, Option.some.injEq] at hc
      subst hc
      decide
    · have h1 : (sanitizedTitle title).head? = some c :=
        head?_of_prefix (List.take_prefix 200 (sanitizedTitle title)) hc
      have h2 := head?_of_prefix (trimChars_prefix_dropWhile
        (collapseWs false (title.filter (fun c => !invalidFilenameChar c)))) h1
      exact head?_dropWhile isJsWhitespace _ c h2
  have hbase_len : (baseFilename title).length ≤ 200 := by
    rw [baseFilename]
    split
    · decide
    · simp [List.length_take]
  have hbase_ne : baseFilename title ≠ [] := by
    rw [baseFilename]
    split
    · decide
    · rename_i hne
      intro hnil
      exact hne (by rw [hnil]; rfl)
  refine ⟨?_, ?_, ?_, ?_, ?_, ?_, ?_⟩
  · intro c hc
    rw [generateFilename] at hc
    split at hc
    · exact hbase_mem c hc
    · rcases List.mem_append.mp hc with hc1 | hc1
      · exact hbase_mem c hc1
      · exact hpdf_mem c hc1
  · rw [generateFilename]
    split
    · exact hbase_chain
    · rw [NoWsRun, List.chain'_append]
      refine ⟨hbase_chain, noWsRun_of_all_nonWs _ (by decide), ?_⟩
      intro x _ y hy
      have hy2 : '.' = y := by simpa using hy
      subst hy2
      exact Or.inr (by decide)
  · intro c hc
    rw [generateFilename] at hc
    split at hc
    · exact hbase_head c hc
    · rcases hB : baseFilename title with _ | ⟨a, rest⟩
      · exact absurd hB hbase_ne
      · rw [hB, List.cons_append, List.head?_cons] at hc
        simp only [Option.some.injEq] at hc
        subst hc
        exact hbase_head _ (by rw [hB]; rfl)
  · rw [generateFilename]
    split
    · omega
    · rw [List.length_append]
      have : (".pdf".data).length = 4 := by decide
      omega
  · intro hs
    rw [generateFilename, baseFilename, hs]
    decide
  · rw [generateFilename]
    split
    · rename_i hcond
      exact hcond
    · rw [List.map_append]
      have hlow : (".pdf".data).map Char.toLower = ".pdf".data := by decide
      rw [hlow]
      exact seqEndsWith_append_self _ _
  · intro hfalse
    rw [generateFilename, if_neg (by rw [hfalse]; exact fun h => Bool.false_ne_true h)]
    refine ⟨rfl, ?_⟩
    rw [List.map_append]
    have hlow : (".pdf".data).map Char.toLower = ".pdf".data := by decide
    rw [hlow]
    have hsplit : ".pdf.pdf".data = ".pdf".data ++ ".pdf".data := by decide
    rw [hsplit, seqEndsWith_append_right]
    exact hfalse

theorem generateFilename_sanitization_witness :
    generateFilename "a/b:c*d".data =
      baseFilename "a/b:c*d".data ++ ".pdf".data ∧
    seqEndsWith ((generateFilename "a/b:c*d".data).map Char.toLower)
      ".pdf.pdf".data = false ∧
    seqEndsWith ((generateFilename "a/b:c*d".data).map Char.toLower)
      ".pdf".data = true ∧
    generateFilename "".data = "RedNote_Post.pdf".data ∧
    isJsWhitespace 'a' = false :=
  ⟨((generateFilename_sanitization ("a/b:c*d".data)).2.2.2.2.2.2 (by decide)).1,
   ((generateFilename_sanitization ("a/b:c*d".data)).2.2.2.2.2.2 (by decide)).2,
   (generateFilename_sanitization ("a/b:c*d".data)).2.2.2.2.2.1,
   (generateFilename_sanitization ("".data)).2.2.2.2.1 (by decide),
   (generateFilename_sanitization ("a/b:c*d".data)).2.2.1 'a' (by decide)⟩

/-! ## Base64 helpers (uint8ArrayToBase64 / base64ToUint8Array)

`btoa`/`atob` are Web-platform primitives: they are modelled by standard
RFC 4648 base64 over the byte values of the latin1 string
(`String.fromCharCode`/`charCodeAt` are the identity on byte values
below 256, which is what `Uint8Array` supplies). -/

def base64Alphabet : List Char :=
  "ABCDEFGHIJKLMNOPQRSTUVWXYZabcdefghijklmnopqrstuvwxyz0123456789+/".data

/-- The base64 digit for a 6-bit value. -/
def b64tbl (n : Nat) : Char :=
  base64Alphabet.getD n 'A'

/-- The 6-bit value of a base64 digit. -/
def b64idx (c : Char) : Nat :=
  base64Alphabet.indexOf c

/-- `btoa` on a byte sequence: standard base64 with `=` padding. -/
def base64Encode : List Nat → List Char
  | a :: b :: c :: rest =>
    b64tbl (a / 4) :: b64tbl ((a % 4) * 16 + b / 16) ::
    b64tbl ((b % 16) * 4 + c / 64) :: b64tbl (c % 64) :: base64Encode rest
  | [a, b] => [b64tbl (a / 4), b64tbl ((a % 4) * 16 + b / 16), b64tbl ((b % 16) * 4), '=']
  | [a] => [b64tbl (a / 4), b64tbl ((a % 4) * 16), '=', '=']
  | [] => []

/-- `atob` on well-formed base64 text (padding only in the final
quartet), returning byte values. -/
def base64Decode : List Char → List Nat
  | c1 :: c2 :: c3 :: c4 :: rest =>
    if c3 = '=' then
      [b64idx c1 * 4 + b64idx c2 / 16]
    else if c4 = '=' then
      [b64idx c1 * 4 + b64idx c2 / 16, (b64idx c2 % 16) * 16 + b64idx c3 / 4]
    else
      (b64idx c1 * 4 + b64idx c2 / 16) ::
      ((b64idx c2 % 16) * 16 + b64idx c3 / 4) ::
      ((b64idx c3 % 4) * 64 + b64idx c4) :: base64Decode rest
  | _ => []

/-- The `binary` string built chunkwise (32 KB chunks) by
`uint8ArrayToBase64`, as its list of character codes. -/
def uint8ChunkConcat (bytes : List Nat) : List Nat :=
  if _hne : bytes = [] then []
  else bytes.take 0x8000 ++ uint8ChunkConcat (bytes.drop 0x8000)
termination_by bytes.length
decreasing_by
  simp only [List.length_drop]
  have : bytes.length ≠ 0 := fun hz => _hne (List.length_eq_zero.mp hz)
  omega

/-- `uint8ArrayToBase64`: chunked `fromCharCode` concatenation followed
by `btoa`. -/
def uint8ArrayToBase64 (bytes : List Nat) : List Char :=
  base64Encode (uint8ChunkConcat bytes)

/-- `base64ToUint8Array`: `atob` followed by per-character
`charCodeAt`. -/
def base64ToUint8Array (base64 : List Char) : List Nat :=
  base64Decode base64

lemma uint8ChunkConcat_eq_of_le :
    ∀ (n : Nat) (bytes : List Nat), bytes.length ≤ n → uint8ChunkConcat bytes = bytes := by
  intro n
  induction n with
  | zero =>
    intro bytes hb
    have hnil : bytes = [] := List.length_eq_zero.mp (by omega)
    rw [uint8ChunkConcat, dif_pos hnil, hnil]
  | succ n ih =>
    intro bytes hb
    rw [uint8ChunkConcat]
    split
    · rename_i h
      rw [h]
    · rename_i h
      have hpos : bytes.length ≠ 0 := fun hz => h (List.length_eq_zero.mp hz)
      rw [ih (bytes.drop 0x8000) (by simp only [List.length_drop]; omega),
        List.take_append_drop]

lemma uint8ChunkConcat_eq (bytes : List Nat) : uint8ChunkConcat bytes = bytes :=
  uint8ChunkConcat_eq_of_le bytes.length bytes (le_refl _)

lemma b64idx_tbl : ∀ n, n < 64 → b64idx (b64tbl n) = n := by decide

lemma b64tbl_ne_pad : ∀ n, n < 64 → b64tbl n ≠ '=' := by decide

theorem base64_decode_encode :
    ∀ (l : List Nat), (∀ x ∈ l, x < 256) → base64Decode (base64Encode l) = l
  | [], _ => rfl
  | [a], h => by
    have ha : a < 256 := h a (by simp)
    have e1 : b64idx (b64tbl (a / 4)) = a / 4 := b64idx_tbl _ (by omega)
    have e2 : b64idx (b64tbl (a % 4 * 16)) = a % 4 * 16 := b64idx_tbl _ (by omega)
    simp [base64Encode, base64Decode, e1, e2]
    omega
  | [a, b], h => by
    have ha : a < 256 := h a (by simp)
    have hb : b < 256 := h b (by simp)
    have e1 : b64idx (b64tbl (a / 4)) = a / 4 := b64idx_tbl _ (by omega)
    have e2 : b64idx (b64tbl (a % 4 * 16 + b / 16)) = a % 4 * 16 + b / 16 :=
      b64idx_tbl _ (by omega)
    have e3 : b64idx (b64tbl (b % 16 * 4)) = b % 16 * 4 := b64idx_tbl _ (by omega)
    have ne3 : ¬ b64tbl (b % 16 * 4) = '=' := b64tbl_ne_pad _ (by omega)
    simp [base64Encode, base64Decode, e1, e2, e3, ne3]
    omega
  | a :: b :: c :: d :: rest, h => by
    have ha : a < 256 := h a (by simp)
    have hb : b < 256 := h b (by simp)
    have hc : c < 256 := h c (by simp)
    have ih := base64_decode_encode (d :: rest)
      (fun x hx => h x (by simp at hx ⊢; tauto))
    have e1 : b64idx (b64tbl (a / 4)) = a / 4 := b64idx_tbl _ (by omega)
    have e2 : b64idx (b64tbl (a % 4 * 16 + b / 16)) = a % 4 * 16 + b / 16 :=
      b64idx_tbl _ (by omega)
    have e3 : b64idx (b64tbl (b % 16 * 4 + c / 64)) = b % 16 * 4 + c / 64 :=
      b64idx_tbl _ (by omega)
    have e4 : b64idx (b64tbl (c % 64)) = c % 64 := b64idx_tbl _ (by omega)
    have ne3 : ¬ b64tbl (b % 16 * 4 + c / 64) = '=' := b64tbl_ne_pad _ (by omega)
    have ne4 : ¬ b64tbl (c % 64) = '=' := b64tbl_ne_pad _ (by omega)
    simp [base64Encode, base64Decode, e1, e2, e3, e4, ne3, ne4, ih]
    omega
  | [a, b, c], h => by
    have ha : a < 256 := h a (by simp)
    have hb : b < 256 := h b (by simp)
    have hc : c < 256 := h c (by simp)
    have e1 : b64idx (b64tbl (a / 4)) = a / 4 := b64idx_tbl _ (by omega)
    have e2 : b64idx (b64tbl (a % 4 * 16 + b / 16)) = a % 4 * 16 + b / 16 :=
      b64idx_tbl _ (by omega)
    have e3 : b64idx (b64tbl (b % 16 * 4 + c / 64)) = b % 16 * 4 + c / 64 :=
      b64idx_tbl _ (by omega)
    have e4 : b64idx (b64tbl (c % 64)) = c % 64 := b64idx_tbl _ (by omega)
    have ne3 : ¬ b64tbl (b % 16 * 4 + c / 64) = '=' := b64tbl_ne_pad _ (by omega)
    have ne4 : ¬ b64tbl (c % 64) = '=' := b64tbl_ne_pad _ (by omega)
    simp [base64Encode, base64Decode, e1, e2, e3, e4, ne3, ne4]
    omega

/-- C10: `base64ToUint8Array` is a left inverse of `uint8ArrayToBase64`:
for every byte sequence (each value below 256, as `Uint8Array`
guarantees, of any length including the empty array and arrays spanning
several 32 KB encoding chunks) decoding the encoding returns the bytes
unchanged. -/
theorem base64_roundTrip (b : List Nat) (h : ∀ x ∈ b, x < 256) :
    base64ToUint8Array (uint8ArrayToBase64 b) = b := by
  rw [uint8ArrayToBase64, uint8ChunkConcat_eq, base64ToUint8Array]
  exact base64_decode_encode b h

theorem base64_roundTrip_witness :
    base64ToUint8Array (uint8ArrayToBase64 [0, 255, 16, 7, 128]) =
        [0, 255, 16, 7, 128] ∧
    base64ToUint8Array (uint8ArrayToBase64 []) = ([] : List Nat) :=
  ⟨base64_roundTrip [0, 255, 16, 7, 128] (by decide),
   base64_roundTrip [] (by decide)⟩

end RedNote
